import Mathlib

/-!
Shallow embedding of the expense/income/analytics services of the
ExpenseGraphica personal-finance application, together with proofs of the
specified properties of its aggregation layer.

Modelling conventions:

* JavaScript numbers carrying currency amounts are modelled as `ℚ`; every
  arithmetic expression of the source is translated operation for operation.
* Strings keep their source role.  Date strings are compared with the
  lexicographic order on their character lists (`String.data`); on the
  zero-padded ISO `YYYY-MM-DD` dates the application stores, this coincides
  both with JavaScript string comparison (`>=`, `<=`, `localeCompare`) and
  with the chronological order produced by `new Date(d).getTime()`.
* `Array.prototype.sort` is stable (ECMAScript 2019); it is modelled by a
  stable insertion sort parameterised by the comparator key.
* JavaScript objects used as dictionaries (`Record<string, ...>`) whose keys
  are non-index strings iterate in property-insertion order; they are
  modelled as association lists in which a new key is appended at the end.
* Optional function arguments and optional record fields are `Option`s.  A
  source guard `if (filter.field)` tests JavaScript truthiness, under which
  both `undefined` and the empty string are skipped; `truthy` models this.
  The guards on `minAmount`/`maxAmount` use `!== undefined` and are modelled
  by a plain `Option` match.
-/

namespace Graphica

/-- Lowercased character list of a string, modelling JavaScript
`s.toLowerCase()` on the ASCII strings this application stores. -/
def lowerD (s : String) : List Char := s.data.map Char.toLower

/-- Boolean test that `q` occurs at the start of `s`. -/
def startsWith : List Char → List Char → Bool
  | _, [] => true
  | [], _ :: _ => false
  | c :: cs, d :: ds => c == d && startsWith cs ds

/-- Boolean test that `q` occurs as a contiguous run inside `s`, modelling
JavaScript `s.includes(q)`. -/
def containsSub : List Char → List Char → Bool
  | [], q => q.isEmpty
  | c :: cs, q => startsWith (c :: cs) q || containsSub cs q

/-- JavaScript truthiness of an optional string: `undefined` and `""` are
falsy, so a guard `if (field)` fires only for `some s` with `s` nonempty. -/
def truthy : Option String → Option String
  | some s => if s = "" then none else some s
  | none => none

section StableSort

variable {α : Type} {κ : Type} [LinearOrder κ]

/-- Insert `x` into `l` in front of the first element whose key is not
strictly smaller; the single step of a stable insertion sort ascending by
`key`. -/
def insertLe (key : α → κ) (x : α) : List α → List α
  | [] => [x]
  | y :: ys => if key y < key x then y :: insertLe key x ys else x :: y :: ys

/-- Stable sort ascending by `key`: elements with equal keys keep their
input order.  This models the stable `Array.prototype.sort` run with a
comparator that orders by `key` ascending. -/
def sortByKey (key : α → κ) (l : List α) : List α := l.foldr (insertLe key) []

/-- Stable sort descending by `key` (the same stable sort on the dual
order), modelling comparators such as
`(a, b) => new Date(b.date).getTime() - new Date(a.date).getTime()` and
`(a, b) => b.amount - a.amount`. -/
def sortByKeyD (key : α → κ) (l : List α) : List α :=
  sortByKey (fun a => OrderDual.toDual (key a)) l

end StableSort

section AssocMap

variable {β : Type}

/-- Keys of an association list, in insertion order. -/
def keysOf (m : List (String × β)) : List String := m.map Prod.fst

/-- Value stored under key `k`, if any. -/
def findVal : List (String × β) → String → Option β
  | [], _ => none
  | (k', b) :: rest, k => if k' = k then some b else findVal rest k

/-- Apply `f` to the entry of key `k`, first creating it with value `dflt`
(appended at the end, as JavaScript property creation does) when the key is
absent.  This models the source idiom
`if (!m[k]) m[k] = dflt; m[k] = f(m[k])`. -/
def updAssoc (k : String) (f : β → β) (dflt : β) :
    List (String × β) → List (String × β)
  | [] => [(k, f dflt)]
  | (k', b) :: rest =>
    if k' = k then (k', f b) :: rest else (k', b) :: updAssoc k f dflt rest

end AssocMap

/-- Accumulate `v` onto key `k` of a numeric dictionary, modelling
`m[k] = (m[k] || 0) + v`. -/
def upsert (k : String) (v : ℚ) (m : List (String × ℚ)) : List (String × ℚ) :=
  updAssoc k (fun b => b + v) 0 m

/-- Sum of the values of a numeric dictionary. -/
def valSum (m : List (String × ℚ)) : ℚ := (m.map Prod.snd).sum

/-- Index of the first element satisfying `p`, modelling
`Array.prototype.findIndex` (with `none` for the sentinel `-1`). -/
def findIndexOf {α : Type} (p : α → Bool) : List α → Option Nat
  | [] => none
  | x :: xs => if p x then some 0 else (findIndexOf p xs).map (· + 1)

/-- Expense record of `expense-data.ts`.  The constant discriminant field
`type: "expense"` carries no information and is omitted. -/
structure Expense where
  id : String
  amount : ℚ
  date : String
  category : String
  description : String
deriving DecidableEq, Repr

/-- Default expense record (used only for `List.getD`). -/
instance : Inhabited Expense :=
  ⟨{ id := "", amount := 0, date := "", category := "", description := "" }⟩

/-- Filter accepted by `getExpenses`. -/
structure ExpenseFilter where
  startDate : Option String := none
  endDate : Option String := none
  category : Option String := none
  minAmount : Option ℚ := none
  maxAmount : Option ℚ := none
  searchQuery : Option String := none
deriving DecidableEq, Repr

/-- Result shape of `getExpenseSummary`. -/
structure ExpenseSummary where
  totalExpenses : ℚ
  averageExpense : ℚ
  expenseCount : Nat
  byCategory : List (String × ℚ)
  byMonth : List (String × ℚ)
deriving DecidableEq, Repr

/-- Income record of `income-data.ts`.  The source field is one of the four
strings "Salary", "Freelance", "Investments", "Other"; the closed vocabulary
plays no role in the claims and the field is modelled as a string. -/
structure Income where
  id : String
  amount : ℚ
  date : String
  source : String
  description : String
deriving DecidableEq, Repr

/-- Default income record (used only for `List.getD`). -/
instance : Inhabited Income :=
  ⟨{ id := "", amount := 0, date := "", source := "", description := "" }⟩

/-- Filter accepted by `getIncome` (no free-text search field). -/
structure IncomeFilter where
  startDate : Option String := none
  endDate : Option String := none
  source : Option String := none
  minAmount : Option ℚ := none
  maxAmount : Option ℚ := none
deriving DecidableEq, Repr

/-- Result shape of `getIncomeSummary`. -/
structure IncomeSummary where
  totalIncome : ℚ
  averageIncome : ℚ
  incomeCount : Nat
  bySource : List (String × ℚ)
  byMonth : List (String × ℚ)
deriving DecidableEq, Repr

/-- Source step `if (filter.startDate) filtered = filtered.filter(e =>
e.date >= filter.startDate)` of `getExpenses`. -/
def stepStartDate (f : ExpenseFilter) (l : List Expense) : List Expense :=
  match truthy f.startDate with
  | some s => l.filter fun e => decide (s.data ≤ e.date.data)
  | none => l

/-- Source step for `filter.endDate` (`e.date <= filter.endDate`). -/
def stepEndDate (f : ExpenseFilter) (l : List Expense) : List Expense :=
  match truthy f.endDate with
  | some s => l.filter fun e => decide (e.date.data ≤ s.data)
  | none => l

/-- Source step for `filter.category`
(`e.category.toLowerCase() === filter.category.toLowerCase()`). -/
def stepCategory (f : ExpenseFilter) (l : List Expense) : List Expense :=
  match truthy f.category with
  | some c => l.filter fun e => decide (lowerD e.category = lowerD c)
  | none => l

/-- Source step for `filter.minAmount !== undefined`
(`e.amount >= filter.minAmount`). -/
def stepMinAmount (f : ExpenseFilter) (l : List Expense) : List Expense :=
  match f.minAmount with
  | some m => l.filter fun e => decide (m ≤ e.amount)
  | none => l

/-- Source step for `filter.maxAmount !== undefined`
(`e.amount <= filter.maxAmount`). -/
def stepMaxAmount (f : ExpenseFilter) (l : List Expense) : List Expense :=
  match f.maxAmount with
  | some m => l.filter fun e => decide (e.amount ≤ m)
  | none => l

/-- Source step for `filter.searchQuery`: case-insensitive substring match
against description or category. -/
def stepSearch (f : ExpenseFilter) (l : List Expense) : List Expense :=
  match truthy f.searchQuery with
  | some q => l.filter fun e =>
      containsSub (lowerD e.description) (lowerD q) ||
      containsSub (lowerD e.category) (lowerD q)
  | none => l

/-- Sequential filter chain of `getExpenses` (`expense-data.ts`, mock-store
variant, lines 62-85): the six source `if`s applied in order. -/
def getExpensesFiltered (f : ExpenseFilter) (l0 : List Expense) : List Expense :=
  stepSearch f (stepMaxAmount f (stepMinAmount f (stepCategory f
    (stepEndDate f (stepStartDate f l0)))))

/-- Model of `getExpenses` (`expense-data.ts` lines 59-88): optional filter
chain over a copy of the store, then a stable sort descending by date. -/
def getExpenses (es : List Expense) (f : Option ExpenseFilter) : List Expense :=
  let filtered := match f with
    | some fl => getExpensesFiltered fl es
    | none => es
  sortByKeyD (fun e => e.date.data) filtered

/-- Model of `addExpense` (`expense-data.ts` lines 93-101).  The source
assigns `id: String(Date.now())`; the wall-clock reading, already converted
to a string, enters as the explicit argument `nowId`.  Returns the new
record and the store after `push`. -/
def addExpense (st : List Expense) (nowId : String) (amount : ℚ)
    (date category description : String) : Expense × List Expense :=
  let newExpense : Expense :=
    { id := nowId, amount := amount, date := date,
      category := category, description := description }
  (newExpense, st ++ [newExpense])

/-- Partial update object accepted by `updateExpense`
(`Partial<Omit<Expense, "id" | "type">>`). -/
structure ExpenseUpdate where
  amount : Option ℚ := none
  date : Option String := none
  category : Option String := none
  description : Option String := none
deriving DecidableEq, Repr

/-- Spread-merge `{ ...e, ...u }` of an expense with a partial update. -/
def applyExpenseUpdates (e : Expense) (u : ExpenseUpdate) : Expense :=
  { id := e.id, amount := u.amount.getD e.amount, date := u.date.getD e.date,
    category := u.category.getD e.category,
    description := u.description.getD e.description }

/-- Model of `updateExpense` (`expense-data.ts` lines 106-112): locate the
first record with the given id, return `none` leaving the store unchanged
when absent, otherwise overwrite in place and return the merged record. -/
def updateExpense (st : List Expense) (id : String) (u : ExpenseUpdate) :
    Option Expense × List Expense :=
  match findIndexOf (fun e => decide (e.id = id)) st with
  | none => (none, st)
  | some i =>
    let merged := applyExpenseUpdates (st.getD i default) u
    (some merged, st.set i merged)

/-- Model of `deleteExpense` (`expense-data.ts` lines 117-123): locate the
first record with the given id, return `false` leaving the store unchanged
when absent, otherwise splice it out and return `true`. -/
def deleteExpense (st : List Expense) (id : String) : Bool × List Expense :=
  match findIndexOf (fun e => decide (e.id = id)) st with
  | none => (false, st)
  | some i => (true, st.eraseIdx i)

/-- Model of `getExpenseSummary` (`expense-data.ts` lines 137-160).  The
source builds `byCategory` and `byMonth` in one `forEach`; the two
accumulations are independent and appear as two folds over the same
filtered list.  The month key is `date.substring(0, 7)`. -/
def getExpenseSummary (es : List Expense) (f : Option ExpenseFilter) :
    ExpenseSummary :=
  let filtered := getExpenses es f
  let totalExpenses := filtered.foldl (fun s e => s + e.amount) 0
  { totalExpenses := totalExpenses
    averageExpense :=
      if 0 < filtered.length then totalExpenses / (filtered.length : ℚ) else 0
    expenseCount := filtered.length
    byCategory := filtered.foldl (fun m e => upsert e.category e.amount m) []
    byMonth := filtered.foldl
      (fun m e => upsert (String.mk (e.date.data.take 7)) e.amount m) [] }

/-- Sequential filter chain of `getIncome` (`income-data.ts` lines 48-64). -/
def getIncomeFiltered (f : IncomeFilter) (l0 : List Income) : List Income :=
  let l1 := match truthy f.startDate with
    | some s => l0.filter fun i => decide (s.data ≤ i.date.data)
    | none => l0
  let l2 := match truthy f.endDate with
    | some s => l1.filter fun i => decide (i.date.data ≤ s.data)
    | none => l1
  let l3 := match truthy f.source with
    | some c => l2.filter fun i => decide (lowerD i.source = lowerD c)
    | none => l2
  let l4 := match f.minAmount with
    | some m => l3.filter fun i => decide (m ≤ i.amount)
    | none => l3
  let l5 := match f.maxAmount with
    | some m => l4.filter fun i => decide (i.amount ≤ m)
    | none => l4
  l5

/-- Model of `getIncome` (`income-data.ts` lines 45-67). -/
def getIncome (is : List Income) (f : Option IncomeFilter) : List Income :=
  let filtered := match f with
    | some fl => getIncomeFiltered fl is
    | none => is
  sortByKeyD (fun i => i.date.data) filtered

/-- Model of `addIncome` (`income-data.ts` lines 72-79), with the stringified
`Date.now()` reading as the explicit argument `nowId`. -/
def addIncome (st : List Income) (nowId : String) (amount : ℚ)
    (date source description : String) : Income × List Income :=
  let newIncome : Income :=
    { id := nowId, amount := amount, date := date,
      source := source, description := description }
  (newIncome, st ++ [newIncome])

/-- Partial update object accepted by `updateIncome`. -/
structure IncomeUpdate where
  amount : Option ℚ := none
  date : Option String := none
  source : Option String := none
  description : Option String := none
deriving DecidableEq, Repr

/-- Spread-merge of an income record with a partial update. -/
def applyIncomeUpdates (i : Income) (u : IncomeUpdate) : Income :=
  { id := i.id, amount := u.amount.getD i.amount, date := u.date.getD i.date,
    source := u.source.getD i.source,
    description := u.description.getD i.description }

/-- Model of `updateIncome` (`income-data.ts` lines 84-90). -/
def updateIncome (st : List Income) (id : String) (u : IncomeUpdate) :
    Option Income × List Income :=
  match findIndexOf (fun i => decide (i.id = id)) st with
  | none => (none, st)
  | some i =>
    let merged := applyIncomeUpdates (st.getD i default) u
    (some merged, st.set i merged)

/-- Model of `deleteIncome` (`income-data.ts` lines 95-101). -/
def deleteIncome (st : List Income) (id : String) : Bool × List Income :=
  match findIndexOf (fun i => decide (i.id = id)) st with
  | none => (false, st)
  | some i => (true, st.eraseIdx i)

/-- Model of `getIncomeSummary` (`income-data.ts` lines 106-129). -/
def getIncomeSummary (is : List Income) (f : Option IncomeFilter) :
    IncomeSummary :=
  let filtered := getIncome is f
  let totalIncome := filtered.foldl (fun s i => s + i.amount) 0
  { totalIncome := totalIncome
    averageIncome :=
      if 0 < filtered.length then totalIncome / (filtered.length : ℚ) else 0
    incomeCount := filtered.length
    bySource := filtered.foldl (fun m i => upsert i.source i.amount m) []
    byMonth := filtered.foldl
      (fun m i => upsert (String.mk (i.date.data.take 7)) i.amount m) [] }

/-- Result shape of `getBalanceSummary` (`analytics-data.ts`). -/
structure BalanceSummary where
  totalIncome : ℚ
  totalExpenses : ℚ
  balance : ℚ
  savingsRate : ℚ
deriving DecidableEq, Repr

/-- Model of `getBalanceSummary` (`analytics-data.ts` lines 54-69). -/
def getBalanceSummary (es : List Expense) (is : List Income)
    (expenseFilter : Option ExpenseFilter) (incomeFilter : Option IncomeFilter) :
    BalanceSummary :=
  let expenseSummary := getExpenseSummary es expenseFilter
  let incomeSummary := getIncomeSummary is incomeFilter
  let balance := incomeSummary.totalIncome - expenseSummary.totalExpenses
  let savingsRate :=
    if 0 < incomeSummary.totalIncome then
      (incomeSummary.totalIncome - expenseSummary.totalExpenses) /
        incomeSummary.totalIncome * 100
    else 0
  { totalIncome := incomeSummary.totalIncome
    totalExpenses := expenseSummary.totalExpenses
    balance := balance
    savingsRate := savingsRate }

/-- Entry shape of `getSpendingByCategory`. -/
structure SpendingByCategory where
  category : String
  amount : ℚ
  percentage : ℚ
  color : String
deriving DecidableEq, Repr

/-- Static category→colour table of `analytics-data.ts` lines 39-49. -/
def categoryColors : List (String × String) :=
  [("Groceries", "#10b981"), ("Rent", "#6366f1"),
   ("Transportation", "#f59e0b"), ("Utilities", "#8b5cf6"),
   ("Entertainment", "#ec4899"), ("Dining", "#f97316"),
   ("Healthcare", "#ef4444"), ("Shopping", "#06b6d4"),
   ("Subscriptions", "#84cc16")]

/-- Colour lookup `categoryColors[category] || "#64748b"`. -/
def colorOf (c : String) : String := (findVal categoryColors c).getD "#64748b"

/-- Model of `getSpendingByCategory` (`analytics-data.ts` lines 74-86). -/
def getSpendingByCategory (es : List Expense) (f : Option ExpenseFilter) :
    List SpendingByCategory :=
  let summary := getExpenseSummary es f
  let total := summary.totalExpenses
  sortByKeyD (fun s => s.amount)
    (summary.byCategory.map fun p =>
      { category := p.1, amount := p.2,
        percentage := if 0 < total then p.2 / total * 100 else 0,
        color := colorOf p.1 })

/-- Entry shape of `getSpendingTrends`. -/
structure TrendDataPoint where
  date : String
  income : ℚ
  expenses : ℚ
  balance : ℚ
deriving DecidableEq, Repr

/-- Combined filter `ExpenseFilter & IncomeFilter` accepted by
`getSpendingTrends`. -/
structure TrendFilter where
  startDate : Option String := none
  endDate : Option String := none
  category : Option String := none
  source : Option String := none
  minAmount : Option ℚ := none
  maxAmount : Option ℚ := none
  searchQuery : Option String := none
deriving DecidableEq, Repr

/-- Expense-side projection of a combined trend filter. -/
def trendExpenseFilter (f : TrendFilter) : ExpenseFilter :=
  { startDate := f.startDate, endDate := f.endDate, category := f.category,
    minAmount := f.minAmount, maxAmount := f.maxAmount,
    searchQuery := f.searchQuery }

/-- Income-side projection of a combined trend filter. -/
def trendIncomeFilter (f : TrendFilter) : IncomeFilter :=
  { startDate := f.startDate, endDate := f.endDate, source := f.source,
    minAmount := f.minAmount, maxAmount := f.maxAmount }

/-- Per-date accumulator cell `{ income, expenses }` of `getSpendingTrends`. -/
structure DayAcc where
  income : ℚ
  expenses : ℚ
deriving DecidableEq, Repr

/-- One expense step of the `dataByDate` accumulation: create a
zero-initialised cell on first touch, then add to its `expenses`. -/
def trendAddExpense (m : List (String × DayAcc)) (e : Expense) :
    List (String × DayAcc) :=
  updAssoc e.date (fun a => { a with expenses := a.expenses + e.amount })
    { income := 0, expenses := 0 } m

/-- One income step of the `dataByDate` accumulation. -/
def trendAddIncome (m : List (String × DayAcc)) (i : Income) :
    List (String × DayAcc) :=
  updAssoc i.date (fun a => { a with income := a.income + i.amount })
    { income := 0, expenses := 0 } m

/-- Model of `getSpendingTrends` (`analytics-data.ts` lines 91-120):
filtered expenses then filtered income are folded into a date-keyed
accumulator, whose entries are emitted with `balance = income - expenses`
and sorted ascending by date string (`a.date.localeCompare(b.date)`). -/
def getSpendingTrends (es : List Expense) (is : List Income)
    (f : Option TrendFilter) : List TrendDataPoint :=
  let expenses := getExpenses es (f.map trendExpenseFilter)
  let income := getIncome is (f.map trendIncomeFilter)
  let dataByDate := income.foldl trendAddIncome (expenses.foldl trendAddExpense [])
  sortByKey (fun p => p.date.data)
    (dataByDate.map fun p =>
      { date := p.1, income := p.2.income, expenses := p.2.expenses,
        balance := p.2.income - p.2.expenses })

/-- Entry `{ name, amount }` of a month's `topCategories`. -/
structure CategoryAmount where
  name : String
  amount : ℚ
deriving DecidableEq, Repr

/-- Result shape of `getMonthlyBreakdown`. -/
structure MonthlyBreakdown where
  month : String
  income : ℚ
  expenses : ℚ
  savings : ℚ
  topCategories : List CategoryAmount
deriving DecidableEq, Repr

/-- Per-month accumulator cell of `getMonthlyBreakdown`. -/
structure MonthAcc where
  income : ℚ
  expenses : ℚ
  categories : List (String × ℚ)
deriving DecidableEq, Repr

/-- One expense step of the `dataByMonth` accumulation: bucket by the first
seven characters of the date, add to the month's `expenses` and to its
per-category map. -/
def monthAddExpense (m : List (String × MonthAcc)) (e : Expense) :
    List (String × MonthAcc) :=
  updAssoc (String.mk (e.date.data.take 7))
    (fun a =>
      { a with
        expenses := a.expenses + e.amount
        categories := upsert e.category e.amount a.categories })
    { income := 0, expenses := 0, categories := [] } m

/-- One income step of the `dataByMonth` accumulation. -/
def monthAddIncome (m : List (String × MonthAcc)) (i : Income) :
    List (String × MonthAcc) :=
  updAssoc (String.mk (i.date.data.take 7))
    (fun a => { a with income := a.income + i.amount })
    { income := 0, expenses := 0, categories := [] } m

/-- Model of `getMonthlyBreakdown` (`analytics-data.ts` lines 125-166): all
stored records (`getExpenses()` / `getIncome()` with no filter) are bucketed
by month key; each month reports `savings = income - expenses` and its top
three categories by amount; months are sorted descending by key and the
first `months` are returned. -/
def getMonthlyBreakdown (es : List Expense) (is : List Income) (months : Nat) :
    List MonthlyBreakdown :=
  let expenses := getExpenses es none
  let income := getIncome is none
  let dataByMonth := income.foldl monthAddIncome (expenses.foldl monthAddExpense [])
  let entries := dataByMonth.map fun p =>
    { month := p.1, income := p.2.income, expenses := p.2.expenses,
      savings := p.2.income - p.2.expenses,
      topCategories :=
        (sortByKeyD (fun c => c.amount)
          (p.2.categories.map fun q => CategoryAmount.mk q.1 q.2)).take 3 }
  (sortByKeyD (fun mb => mb.month.data) entries).take months

/-- Expense record as handled by the API variant of `getExpenses`
(`expense-data.ts`, API variant): its search branch reads
`e.description?.toLowerCase().includes(query) || false`, so the description
is modelled as optional. -/
structure ApiExpense where
  id : String
  amount : ℚ
  date : String
  category : String
  description : Option String
deriving DecidableEq, Repr

/-- Search predicate of the API variant:
`(e.description?.toLowerCase().includes(query) || false) ||
e.category.toLowerCase().includes(query)`. -/
def apiSearchMatch (e : ApiExpense) (query : List Char) : Bool :=
  (match e.description with
   | some d => containsSub (lowerD d) query
   | none => false) || containsSub (lowerD e.category) query

/-- API-variant source step for `filter.startDate`. -/
def apiStepStartDate (f : ExpenseFilter) (l : List ApiExpense) : List ApiExpense :=
  match truthy f.startDate with
  | some s => l.filter fun e => decide (s.data ≤ e.date.data)
  | none => l

/-- API-variant source step for `filter.endDate`. -/
def apiStepEndDate (f : ExpenseFilter) (l : List ApiExpense) : List ApiExpense :=
  match truthy f.endDate with
  | some s => l.filter fun e => decide (e.date.data ≤ s.data)
  | none => l

/-- API-variant source step for `filter.category`. -/
def apiStepCategory (f : ExpenseFilter) (l : List ApiExpense) : List ApiExpense :=
  match truthy f.category with
  | some c => l.filter fun e => decide (lowerD e.category = lowerD c)
  | none => l

/-- API-variant source step for `filter.minAmount`. -/
def apiStepMinAmount (f : ExpenseFilter) (l : List ApiExpense) : List ApiExpense :=
  match f.minAmount with
  | some m => l.filter fun e => decide (m ≤ e.amount)
  | none => l

/-- API-variant source step for `filter.maxAmount`. -/
def apiStepMaxAmount (f : ExpenseFilter) (l : List ApiExpense) : List ApiExpense :=
  match f.maxAmount with
  | some m => l.filter fun e => decide (e.amount ≤ m)
  | none => l

/-- API-variant source step for `filter.searchQuery`, using the defensive
optional-chaining search predicate. -/
def apiStepSearch (f : ExpenseFilter) (l : List ApiExpense) : List ApiExpense :=
  match truthy f.searchQuery with
  | some q => l.filter fun e => apiSearchMatch e (lowerD q)
  | none => l

/-- Sequential filter chain of the API variant of `getExpenses`
(lines 240-263 of the API file). -/
def apiGetExpensesFiltered (f : ExpenseFilter) (l0 : List ApiExpense) :
    List ApiExpense :=
  apiStepSearch f (apiStepMaxAmount f (apiStepMinAmount f (apiStepCategory f
    (apiStepEndDate f (apiStepStartDate f l0)))))

/-- Model of the API variant of `getExpenses` applied to an
already-delivered record collection: the same filter chain and the same
stable date-descending sort as the mock-store variant. -/
def apiGetExpenses (es : List ApiExpense) (f : Option ExpenseFilter) :
    List ApiExpense :=
  let filtered := match f with
    | some fl => apiGetExpensesFiltered fl es
    | none => es
  sortByKeyD (fun e => e.date.data) filtered

/-- Replace a missing description by the present empty string. -/
def fillDescription (e : ApiExpense) : ApiExpense :=
  { e with description := some (e.description.getD "") }

/-- Claim-side predicate for the `startDate` constraint: an inclusive lower
bound under lexicographic ISO-date comparison.  A field that is absent — or
set to the empty string, which the source's truthiness guard and the spec's
"malformed or missing optional filter fields are never errors — simply no
constraint applied" treat alike — imposes no constraint. -/
def startDateOk (f : ExpenseFilter) (e : Expense) : Bool :=
  match truthy f.startDate with
  | some s => decide (s.data ≤ e.date.data)
  | none => true

/-- Claim-side predicate for the `endDate` constraint (inclusive upper
bound). -/
def endDateOk (f : ExpenseFilter) (e : Expense) : Bool :=
  match truthy f.endDate with
  | some s => decide (e.date.data ≤ s.data)
  | none => true

/-- Claim-side predicate for the `category` constraint (case-insensitive
exact match). -/
def categoryOk (f : ExpenseFilter) (e : Expense) : Bool :=
  match truthy f.category with
  | some c => decide (lowerD e.category = lowerD c)
  | none => true

/-- Claim-side predicate for the `minAmount` constraint (inclusive numeric
lower bound). -/
def minAmountOk (f : ExpenseFilter) (e : Expense) : Bool :=
  match f.minAmount with
  | some m => decide (m ≤ e.amount)
  | none => true

/-- Claim-side predicate for the `maxAmount` constraint (inclusive numeric
upper bound). -/
def maxAmountOk (f : ExpenseFilter) (e : Expense) : Bool :=
  match f.maxAmount with
  | some m => decide (e.amount ≤ m)
  | none => true

/-- Claim-side predicate for the `searchQuery` constraint (case-insensitive
substring of description or category). -/
def searchOk (f : ExpenseFilter) (e : Expense) : Bool :=
  match truthy f.searchQuery with
  | some q =>
    containsSub (lowerD e.description) (lowerD q) ||
    containsSub (lowerD e.category) (lowerD q)
  | none => true

/-- Conjunction of the six per-field constraints, written from the claim:
all present fields must hold, absent fields impose no constraint. -/
def matchesFilterSpec (f : ExpenseFilter) (e : Expense) : Bool :=
  ((((startDateOk f e && endDateOk f e) && categoryOk f e) &&
    minAmountOk f e) && maxAmountOk f e) && searchOk f e

/-- Sample expense used by the concrete witness theorems. -/
def wRent : Expense :=
  { id := "1", amount := 100, date := "2026-02-01", category := "Rent",
    description := "monthly rent" }

/-- Second sample expense (same date as `wRent`, other category). -/
def wDining : Expense :=
  { id := "2", amount := 50, date := "2026-02-01", category := "Dining",
    description := "dinner" }

/-- Sample expense of amount `0`, for the zero-total cases. -/
def wZero : Expense :=
  { id := "3", amount := 0, date := "2026-02-02", category := "Misc",
    description := "nothing" }

/-- Sample income record used by the concrete witness theorems. -/
def wSalary : Income :=
  { id := "1", amount := 500, date := "2026-02-02", source := "Salary",
    description := "pay" }

/-- Sample API-variant expense with a missing description. -/
def wApiNoDesc : ApiExpense :=
  { id := "9", amount := 10, date := "2026-02-03", category := "Rent",
    description := none }

/-- Sum of the amounts of the expenses dated `d`. -/
def expSumOn (l : List Expense) (d : String) : ℚ :=
  ((l.filter fun e => decide (e.date = d)).map fun e => e.amount).sum

/-- Sum of the amounts of the income records dated `d`. -/
def incSumOn (l : List Income) (d : String) : ℚ :=
  ((l.filter fun i => decide (i.date = d)).map fun i => i.amount).sum

/-- Expense total stored for date `d` in a trend accumulator (`0` when the
date has no cell yet). -/
def dayExpAt (m : List (String × DayAcc)) (d : String) : ℚ :=
  match findVal m d with
  | some a => a.expenses
  | none => 0

/-- Income total stored for date `d` in a trend accumulator. -/
def dayIncAt (m : List (String × DayAcc)) (d : String) : ℚ :=
  match findVal m d with
  | some a => a.income
  | none => 0

/-- Sum of the amounts of the expenses whose month key (first seven
characters of the date) is `mo`. -/
def expSumInMonth (l : List Expense) (mo : String) : ℚ :=
  ((l.filter fun e => decide (String.mk (e.date.data.take 7) = mo)).map
    fun e => e.amount).sum

/-- Sum of the amounts of the income records of month `mo`. -/
def incSumInMonth (l : List Income) (mo : String) : ℚ :=
  ((l.filter fun i => decide (String.mk (i.date.data.take 7) = mo)).map
    fun i => i.amount).sum

/-- Sum of the amounts of the expenses of month `mo` in category `c`. -/
def catSumInMonth (l : List Expense) (mo c : String) : ℚ :=
  (((l.filter fun e => decide (String.mk (e.date.data.take 7) = mo)).filter
    fun e => decide (e.category = c)).map fun e => e.amount).sum

/-- Expense total stored for month `mo` in a monthly accumulator. -/
def monthExpAt (m : List (String × MonthAcc)) (mo : String) : ℚ :=
  match findVal m mo with
  | some a => a.expenses
  | none => 0

/-- Income total stored for month `mo` in a monthly accumulator. -/
def monthIncAt (m : List (String × MonthAcc)) (mo : String) : ℚ :=
  match findVal m mo with
  | some a => a.income
  | none => 0

/-- Per-category map stored for month `mo` in a monthly accumulator. -/
def monthCatsAt (m : List (String × MonthAcc)) (mo : String) :
    List (String × ℚ) :=
  match findVal m mo with
  | some a => a.categories
  | none => []

section StableSortLemmas

variable {α : Type} {κ : Type} [LinearOrder κ]

/-- Inserting with `insertLe` permutes the element onto the list. -/
theorem insertLe_perm (key : α → κ) (x : α) (l : List α) :
    (insertLe key x l).Perm (x :: l) := by
  induction l with
  | nil => exact List.Perm.refl _
  | cons y ys ih =>
    by_cases h : key y < key x
    · simpa [insertLe, h] using (ih.cons y).trans (List.Perm.swap x y ys)
    · simp [insertLe, h]

/-- Sorting permutes the input list. -/
theorem sortByKey_perm (key : α → κ) (l : List α) : (sortByKey key l).Perm l := by
  induction l with
  | nil => exact List.Perm.refl _
  | cons x xs ih =>
    exact (insertLe_perm key x (sortByKey key xs)).trans (ih.cons x)

/-- Membership after an insertion step. -/
theorem mem_insertLe {key : α → κ} {x b : α} {l : List α}
    (hb : b ∈ insertLe key x l) : b = x ∨ b ∈ l :=
  List.mem_cons.mp ((insertLe_perm key x l).mem_iff.mp hb)

/-- An insertion step preserves ascending sortedness by key. -/
theorem insertLe_pairwise (key : α → κ) (x : α) {l : List α}
    (h : l.Pairwise fun a b => key a ≤ key b) :
    (insertLe key x l).Pairwise fun a b => key a ≤ key b := by
  induction l with
  | nil => simp [insertLe]
  | cons y ys ih =>
    rcases List.pairwise_cons.mp h with ⟨hy, hys⟩
    by_cases hlt : key y < key x
    · simp only [insertLe, if_pos hlt]
      refine List.pairwise_cons.mpr ⟨?_, ih hys⟩
      intro b hb
      rcases mem_insertLe hb with rfl | hmem
      · exact le_of_lt hlt
      · exact hy b hmem
    · simp only [insertLe, if_neg hlt]
      refine List.pairwise_cons.mpr ⟨?_, h⟩
      intro b hb
      rcases List.mem_cons.mp hb with rfl | hmem
      · exact le_of_not_lt hlt
      · exact le_trans (le_of_not_lt hlt) (hy b hmem)

/-- The sorted output is ascending by key. -/
theorem sortByKey_pairwise (key : α → κ) (l : List α) :
    (sortByKey key l).Pairwise fun a b => key a ≤ key b := by
  induction l with
  | nil => simp [sortByKey]
  | cons x xs ih => exact insertLe_pairwise key x ih

/-- Elements of one key value are preserved in order by an insertion step. -/
theorem insertLe_filter_key [DecidableEq κ] (key : α → κ) (x : α) (l : List α) (k : κ) :
    (insertLe key x l).filter (fun a => decide (key a = k)) =
      if key x = k then x :: l.filter (fun a => decide (key a = k))
      else l.filter (fun a => decide (key a = k)) := by
  induction l with
  | nil => by_cases h : key x = k <;> simp [insertLe, h]
  | cons y ys ih =>
    by_cases hlt : key y < key x
    · simp only [insertLe, if_pos hlt]
      by_cases hy : key y = k
      · have hx : key x ≠ k := fun h2 => hlt.ne (hy.trans h2.symm)
        simp [List.filter_cons, hy, hx, ih]
      · by_cases hx : key x = k <;> simp [List.filter_cons, hy, hx, ih]
    · simp only [insertLe, if_neg hlt]
      by_cases hx : key x = k <;> by_cases hy : key y = k <;>
        simp [List.filter_cons, hx, hy]

/-- Stability: the sort keeps elements of equal key in their input order. -/
theorem sortByKey_filter_key [DecidableEq κ] (key : α → κ) (l : List α) (k : κ) :
    (sortByKey key l).filter (fun a => decide (key a = k)) =
      l.filter (fun a => decide (key a = k)) := by
  induction l with
  | nil => rfl
  | cons x xs ih =>
    show (insertLe key x (sortByKey key xs)).filter _ = _
    rw [insertLe_filter_key]
    by_cases hx : key x = k <;> simp [hx, ih, List.filter_cons]

/-- Inserting an element whose key is a lower bound puts it in front. -/
theorem insertLe_of_le (key : α → κ) (x : α) (l : List α)
    (h : ∀ y ∈ l, key x ≤ key y) : insertLe key x l = x :: l := by
  cases l with
  | nil => rfl
  | cons y ys =>
    have hny : ¬ key y < key x := not_lt.mpr (h y (List.mem_cons_self y ys))
    simp [insertLe, hny]

/-- Sorting an already ascending list is the identity. -/
theorem sortByKey_of_pairwise (key : α → κ) {l : List α}
    (h : l.Pairwise fun a b => key a ≤ key b) : sortByKey key l = l := by
  induction l with
  | nil => rfl
  | cons x xs ih =>
    rcases List.pairwise_cons.mp h with ⟨hx, hxs⟩
    show insertLe key x (sortByKey key xs) = x :: xs
    rw [ih hxs]
    exact insertLe_of_le key x xs hx

/-- Sorting is idempotent. -/
theorem sortByKey_idem (key : α → κ) (l : List α) :
    sortByKey key (sortByKey key l) = sortByKey key l :=
  sortByKey_of_pairwise key (sortByKey_pairwise key l)

/-- An insertion step commutes with a key-preserving map. -/
theorem insertLe_map {β' : Type} (g : β' → α) (key : α → κ) (x : β') (l : List β') :
    insertLe key (g x) (l.map g) = (insertLe (fun b => key (g b)) x l).map g := by
  induction l with
  | nil => rfl
  | cons y ys ih =>
    by_cases h : key (g y) < key (g x) <;> simp [insertLe, h, ih]

/-- Sorting commutes with a key-preserving map. -/
theorem sortByKey_map {β' : Type} (g : β' → α) (key : α → κ) (l : List β') :
    sortByKey key (l.map g) = (sortByKey (fun b => key (g b)) l).map g := by
  induction l with
  | nil => rfl
  | cons x xs ih =>
    show insertLe key (g x) (sortByKey key (xs.map g)) = _
    rw [ih, insertLe_map]
    rfl

/-- The descending sort permutes the input list. -/
theorem sortByKeyD_perm (key : α → κ) (l : List α) : (sortByKeyD key l).Perm l :=
  sortByKey_perm _ l

/-- The descending sort's output is descending by key. -/
theorem sortByKeyD_pairwise (key : α → κ) (l : List α) :
    (sortByKeyD key l).Pairwise fun a b => key b ≤ key a := by
  have h := sortByKey_pairwise (fun a => OrderDual.toDual (key a)) l
  exact h.imp fun hab => OrderDual.toDual_le_toDual.mp hab

/-- Stability of the descending sort. -/
theorem sortByKeyD_filter_key [DecidableEq κ] (key : α → κ) (l : List α) (k : κ) :
    (sortByKeyD key l).filter (fun a => decide (key a = k)) =
      l.filter (fun a => decide (key a = k)) := by
  have e1 : ∀ m : List α,
      m.filter (fun a => decide (OrderDual.toDual (key a) = OrderDual.toDual k)) =
        m.filter (fun a => decide (key a = k)) := by
    intro m
    apply List.filter_congr
    intro a _
    simp
  have h := sortByKey_filter_key (fun a => OrderDual.toDual (key a)) l (OrderDual.toDual k)
  rw [e1, e1] at h
  exact h

/-- The descending sort of an already descending list is the identity. -/
theorem sortByKeyD_of_pairwise (key : α → κ) {l : List α}
    (h : l.Pairwise fun a b => key b ≤ key a) : sortByKeyD key l = l :=
  sortByKey_of_pairwise _ (h.imp fun hab => OrderDual.toDual_le_toDual.mpr hab)

/-- The descending sort is idempotent. -/
theorem sortByKeyD_idem (key : α → κ) (l : List α) :
    sortByKeyD key (sortByKeyD key l) = sortByKeyD key l :=
  sortByKey_idem _ l

/-- The descending sort commutes with a key-preserving map. -/
theorem sortByKeyD_map {β' : Type} (g : β' → α) (key : α → κ) (l : List β') :
    sortByKeyD key (l.map g) = (sortByKeyD (fun b => key (g b)) l).map g :=
  sortByKey_map g _ l

end StableSortLemmas

section AssocMapLemmas

variable {β : Type}

/-- Lookup after an `updAssoc` step. -/
theorem findVal_updAssoc (k : String) (f : β → β) (dflt : β)
    (m : List (String × β)) (d : String) :
    findVal (updAssoc k f dflt m) d =
      if d = k then some (f ((findVal m k).getD dflt)) else findVal m d := by
  induction m with
  | nil =>
    by_cases h : d = k
    · simp [updAssoc, findVal, h]
    · simp [updAssoc, findVal, h, Ne.symm h]
  | cons p rest ih =>
    obtain ⟨k', b⟩ := p
    by_cases hk : k' = k
    · subst hk
      by_cases hd : d = k'
      · subst hd
        simp [updAssoc, findVal]
      · simp [updAssoc, findVal, hd, Ne.symm hd]
    · by_cases hd : d = k'
      · subst hd
        simp [updAssoc, findVal, hk]
      · simp [updAssoc, findVal, hk, Ne.symm hd, hd, ih]

/-- Keys after an `updAssoc` step: unchanged when the key is present,
appended at the end when it is new. -/
theorem keysOf_updAssoc (k : String) (f : β → β) (dflt : β)
    (m : List (String × β)) :
    keysOf (updAssoc k f dflt m) =
      if k ∈ keysOf m then keysOf m else keysOf m ++ [k] := by
  induction m with
  | nil => simp [updAssoc, keysOf]
  | cons p rest ih =>
    obtain ⟨k', b⟩ := p
    by_cases hk : k' = k
    · subst hk
      simp [updAssoc, keysOf]
    · have hks : k ≠ k' := fun h2 => hk h2.symm
      have hcons : keysOf ((k', b) :: rest) = k' :: keysOf rest := rfl
      have hstep : keysOf (updAssoc k f dflt ((k', b) :: rest)) =
          k' :: keysOf (updAssoc k f dflt rest) := by
        simp [updAssoc, hk, keysOf]
      rw [hstep, ih, hcons]
      by_cases hm : k ∈ keysOf rest
      · rw [if_pos hm, if_pos (List.mem_cons_of_mem k' hm)]
      · rw [if_neg hm, if_neg (fun hcon => by
          rcases List.mem_cons.mp hcon with h2 | h2
          · exact hks h2
          · exact hm h2)]
        rfl

/-- Key sets stay duplicate-free under `updAssoc`. -/
theorem nodup_keysOf_updAssoc (k : String) (f : β → β) (dflt : β)
    {m : List (String × β)} (h : (keysOf m).Nodup) :
    (keysOf (updAssoc k f dflt m)).Nodup := by
  rw [keysOf_updAssoc]
  by_cases hm : k ∈ keysOf m
  · simpa [hm] using h
  · simp [hm, List.nodup_append, h, List.disjoint_singleton]

/-- Lookup misses exactly the keys outside the key list. -/
theorem findVal_eq_none_iff (m : List (String × β)) (k : String) :
    findVal m k = none ↔ k ∉ keysOf m := by
  induction m with
  | nil => simp [findVal, keysOf]
  | cons p rest ih =>
    obtain ⟨k', b⟩ := p
    by_cases hk : k' = k
    · subst hk
      simp [findVal, keysOf]
    · simp [findVal, keysOf, hk, Ne.symm hk, ih]

/-- A successful lookup comes from an entry of the list. -/
theorem mem_of_findVal {m : List (String × β)} {k : String} {b : β}
    (h : findVal m k = some b) : (k, b) ∈ m := by
  induction m with
  | nil => simp [findVal] at h
  | cons p rest ih =>
    obtain ⟨k', b'⟩ := p
    by_cases hk : k' = k
    · subst hk
      simp [findVal] at h
      subst h
      exact List.mem_cons_self _ _
    · simp only [findVal, if_neg hk] at h
      exact List.mem_cons_of_mem _ (ih h)

/-- With duplicate-free keys, each entry is found by lookup. -/
theorem findVal_of_mem {m : List (String × β)} {k : String} {b : β}
    (hnd : (keysOf m).Nodup) (hm : (k, b) ∈ m) : findVal m k = some b := by
  induction m with
  | nil => simp at hm
  | cons p rest ih =>
    obtain ⟨k', b'⟩ := p
    rcases List.mem_cons.mp hm with heq | hmem
    · injection heq with h1 h2
      subst h1
      subst h2
      simp [findVal]
    · have hknd : (keysOf rest).Nodup := (List.pairwise_cons.mp hnd).2
      have hk : k' ≠ k := by
        intro h2
        subst h2
        exact (List.pairwise_cons.mp hnd).1 k'
          (List.mem_map_of_mem Prod.fst hmem) rfl
      simp only [findVal, if_neg hk]
      exact ih hknd hmem

/-- Lookup over a fold of `updAssoc` steps: untouched keys keep their value,
touched keys hold the fold of their own relevant updates, seeded with the
previous value or the default. -/
theorem findVal_foldl_updAssoc {α : Type} (kf : α → String) (ff : α → β → β)
    (dflt : β) (l : List α) (m : List (String × β)) (d : String) :
    findVal (l.foldl (fun acc x => updAssoc (kf x) (ff x) dflt acc) m) d =
      if (l.filter fun x => decide (kf x = d)).isEmpty then findVal m d
      else some ((l.filter fun x => decide (kf x = d)).foldl
        (fun b x => ff x b) ((findVal m d).getD dflt)) := by
  induction l generalizing m with
  | nil => simp
  | cons x xs ih =>
    by_cases hx : kf x = d
    · subst hx
      rw [List.foldl_cons, ih]
      rw [findVal_updAssoc]
      by_cases he : (xs.filter fun y => decide (kf y = kf x)).isEmpty
      · have he' : (xs.filter fun y => decide (kf y = kf x)) = [] :=
          List.isEmpty_iff.mp he
        simp [List.filter_cons, he, he']
      · simp [List.filter_cons, he]
    · rw [List.foldl_cons, ih, findVal_updAssoc]
      simp [List.filter_cons, hx, Ne.symm hx]

end AssocMapLemmas

section SumLemmas

/-- Left fold of additions equals the starting value plus the mapped sum. -/
theorem foldl_add_map {α : Type} (f : α → ℚ) (l : List α) (a : ℚ) :
    l.foldl (fun s x => s + f x) a = a + (l.map f).sum := by
  induction l generalizing a with
  | nil => simp
  | cons x xs ih => simp [ih, add_assoc]

/-- Value sum of a cons cell. -/
theorem valSum_cons (p : String × ℚ) (m : List (String × ℚ)) :
    valSum (p :: m) = p.2 + valSum m := by
  simp [valSum]

/-- One `upsert` adds its increment to the value sum. -/
theorem valSum_upsert (k : String) (v : ℚ) (m : List (String × ℚ)) :
    valSum (upsert k v m) = valSum m + v := by
  induction m with
  | nil => simp [upsert, updAssoc, valSum]
  | cons p rest ih =>
    obtain ⟨k', b⟩ := p
    by_cases h : k' = k
    · subst h
      simp [upsert, updAssoc, valSum]
      ring
    · have hcons : upsert k v ((k', b) :: rest) = (k', b) :: upsert k v rest := by
        simp [upsert, updAssoc, h]
      rw [hcons, valSum_cons, ih, valSum_cons]
      ring

/-- Folding `upsert`s adds the mapped sum to the value sum. -/
theorem valSum_foldl_upsert {α : Type} (kf : α → String) (fv : α → ℚ)
    (l : List α) (m : List (String × ℚ)) :
    valSum (l.foldl (fun acc x => upsert (kf x) (fv x) acc) m) =
      valSum m + (l.map fv).sum := by
  induction l generalizing m with
  | nil => simp
  | cons x xs ih =>
    rw [List.foldl_cons, ih, valSum_upsert]
    simp [add_assoc]

end SumLemmas

section FilterChainLemmas

/-- The `startDate` step filters by the claim's `startDate` predicate. -/
theorem stepStartDate_eq (f : ExpenseFilter) (l : List Expense) :
    stepStartDate f l = l.filter (startDateOk f) := by
  cases h : truthy f.startDate with
  | none =>
    simp only [stepStartDate, h]
    exact (List.filter_eq_self.mpr fun a _ => by simp [startDateOk, h]).symm
  | some s =>
    simp only [stepStartDate, h]
    exact List.filter_congr fun a _ => by simp [startDateOk, h]

/-- The `endDate` step filters by the claim's `endDate` predicate. -/
theorem stepEndDate_eq (f : ExpenseFilter) (l : List Expense) :
    stepEndDate f l = l.filter (endDateOk f) := by
  cases h : truthy f.endDate with
  | none =>
    simp only [stepEndDate, h]
    exact (List.filter_eq_self.mpr fun a _ => by simp [endDateOk, h]).symm
  | some s =>
    simp only [stepEndDate, h]
    exact List.filter_congr fun a _ => by simp [endDateOk, h]

/-- The `category` step filters by the claim's `category` predicate. -/
theorem stepCategory_eq (f : ExpenseFilter) (l : List Expense) :
    stepCategory f l = l.filter (categoryOk f) := by
  cases h : truthy f.category with
  | none =>
    simp only [stepCategory, h]
    exact (List.filter_eq_self.mpr fun a _ => by simp [categoryOk, h]).symm
  | some s =>
    simp only [stepCategory, h]
    exact List.filter_congr fun a _ => by simp [categoryOk, h]

/-- The `minAmount` step filters by the claim's `minAmount` predicate. -/
theorem stepMinAmount_eq (f : ExpenseFilter) (l : List Expense) :
    stepMinAmount f l = l.filter (minAmountOk f) := by
  cases h : f.minAmount with
  | none =>
    simp only [stepMinAmount, h]
    exact (List.filter_eq_self.mpr fun a _ => by simp [minAmountOk, h]).symm
  | some m =>
    simp only [stepMinAmount, h]
    exact List.filter_congr fun a _ => by simp [minAmountOk, h]

/-- The `maxAmount` step filters by the claim's `maxAmount` predicate. -/
theorem stepMaxAmount_eq (f : ExpenseFilter) (l : List Expense) :
    stepMaxAmount f l = l.filter (maxAmountOk f) := by
  cases h : f.maxAmount with
  | none =>
    simp only [stepMaxAmount, h]
    exact (List.filter_eq_self.mpr fun a _ => by simp [maxAmountOk, h]).symm
  | some m =>
    simp only [stepMaxAmount, h]
    exact List.filter_congr fun a _ => by simp [maxAmountOk, h]

/-- The `searchQuery` step filters by the claim's search predicate. -/
theorem stepSearch_eq (f : ExpenseFilter) (l : List Expense) :
    stepSearch f l = l.filter (searchOk f) := by
  cases h : truthy f.searchQuery with
  | none =>
    simp only [stepSearch, h]
    exact (List.filter_eq_self.mpr fun a _ => by simp [searchOk, h]).symm
  | some s =>
    simp only [stepSearch, h]
    exact List.filter_congr fun a _ => by simp [searchOk, h]

/-- The sequential filter chain equals one filter by the conjunction of all
present constraints. -/
theorem getExpensesFiltered_eq_filter (f : ExpenseFilter) (l : List Expense) :
    getExpensesFiltered f l = l.filter (matchesFilterSpec f) := by
  unfold getExpensesFiltered
  rw [stepStartDate_eq, stepEndDate_eq, stepCategory_eq, stepMinAmount_eq,
    stepMaxAmount_eq, stepSearch_eq, List.filter_filter, List.filter_filter,
    List.filter_filter, List.filter_filter, List.filter_filter]
  apply List.filter_congr
  intro e _
  cases h1 : startDateOk f e <;> cases h2 : endDateOk f e <;>
    cases h3 : categoryOk f e <;> cases h4 : minAmountOk f e <;>
    cases h5 : maxAmountOk f e <;> cases h6 : searchOk f e <;>
    simp [matchesFilterSpec, h1, h2, h3, h4, h5, h6]

/-- Unfolding of `getExpenses` at a present filter. -/
theorem getExpenses_some (es : List Expense) (f : ExpenseFilter) :
    getExpenses es (some f) =
      sortByKeyD (fun e => e.date.data) (es.filter (matchesFilterSpec f)) := by
  show sortByKeyD _ (getExpensesFiltered f es) = _
  rw [getExpensesFiltered_eq_filter]

/-- Unfolding of `getExpenses` with no filter. -/
theorem getExpenses_none (es : List Expense) :
    getExpenses es none = sortByKeyD (fun e => e.date.data) es := rfl

end FilterChainLemmas

/-- Claim C1: for every record collection and every filter, `getExpenses`
returns exactly the records satisfying the conjunction of all present
filter constraints (`matchesFilterSpec`: inclusive lexicographic date
bounds, case-insensitive category match, inclusive amount bounds,
case-insensitive substring search over description or category, absent
fields unconstrained), and the output is the stable date-descending sort of
that filtered collection: it is sorted descending by date and equal-date
records keep their relative input order. -/
theorem claim_C1_getExpenses_filters_and_sorts (es : List Expense)
    (f : ExpenseFilter) :
    getExpenses es (some f) =
      sortByKeyD (fun e => e.date.data) (es.filter (matchesFilterSpec f)) ∧
    (getExpenses es (some f)).Pairwise
      (fun a b => b.date.data ≤ a.date.data) ∧
    ∀ d : String,
      (getExpenses es (some f)).filter (fun e => decide (e.date = d)) =
        (es.filter (matchesFilterSpec f)).filter (fun e => decide (e.date = d)) := by
  refine ⟨getExpenses_some es f, ?_, ?_⟩
  · rw [getExpenses_some]
    exact sortByKeyD_pairwise _ _
  · intro d
    rw [getExpenses_some]
    have hconv : ∀ m : List Expense,
        m.filter (fun e => decide (e.date = d)) =
          m.filter (fun e => decide (e.date.data = d.data)) := by
      intro m
      apply List.filter_congr
      intro e _
      simp only [decide_eq_decide]
      exact ⟨fun h => h ▸ rfl, fun h => String.ext h⟩
    rw [hconv, hconv, sortByKeyD_filter_key]

/-- Claim C8: the filter-and-sort pipeline of `getExpenses` is idempotent:
running it a second time with the same filter returns the same list. -/
theorem claim_C8_applyFilter_idempotent (es : List Expense)
    (f : Option ExpenseFilter) :
    getExpenses (getExpenses es f) f = getExpenses es f := by
  cases f with
  | none =>
    show sortByKeyD _ (sortByKeyD _ es) = sortByKeyD _ es
    exact sortByKeyD_idem _ es
  | some fl =>
    rw [getExpenses_some es fl, getExpenses_some]
    have hall : (sortByKeyD (fun e => e.date.data)
        (es.filter (matchesFilterSpec fl))).filter (matchesFilterSpec fl) =
        sortByKeyD (fun e => e.date.data) (es.filter (matchesFilterSpec fl)) := by
      apply List.filter_eq_self.mpr
      intro a ha
      exact List.of_mem_filter ((sortByKeyD_perm _ _).mem_iff.mp ha)
    rw [hall, sortByKeyD_idem]

/-- Claim C2: the balance reported by `getBalanceSummary` is exactly
`totalIncome - totalExpenses`, and `savingsRate` is
`(totalIncome - totalExpenses) / totalIncome * 100` when `totalIncome > 0`
and `0` when `totalIncome = 0`, for every pair of filters and stores. -/
theorem claim_C2_balance_identity (es : List Expense) (is : List Income)
    (expf : Option ExpenseFilter) (incf : Option IncomeFilter) :
    (getBalanceSummary es is expf incf).balance =
      (getBalanceSummary es is expf incf).totalIncome -
        (getBalanceSummary es is expf incf).totalExpenses ∧
    (0 < (getBalanceSummary es is expf incf).totalIncome →
      (getBalanceSummary es is expf incf).savingsRate =
        ((getBalanceSummary es is expf incf).totalIncome -
          (getBalanceSummary es is expf incf).totalExpenses) /
          (getBalanceSummary es is expf incf).totalIncome * 100) ∧
    ((getBalanceSummary es is expf incf).totalIncome = 0 →
      (getBalanceSummary es is expf incf).savingsRate = 0) := by
  refine ⟨rfl, ?_, ?_⟩
  · intro h
    simp only [getBalanceSummary] at h ⊢
    rw [if_pos h]
  · intro h
    simp only [getBalanceSummary] at h ⊢
    rw [h]
    simp

/-- Claim C6: summarising the empty record set yields the all-zero summary
with empty breakdowns; the average is `0` (not undefined) whenever the
count is `0`; the savings rate is `0` (not undefined) whenever the total
income is `0`.  All embedded operations are total functions, so no
division-by-zero case can raise an exception. -/
theorem claim_C6_zero_division_safety (f : Option ExpenseFilter)
    (es : List Expense) (is : List Income) (expf : Option ExpenseFilter)
    (incf : Option IncomeFilter) :
    getExpenseSummary [] f =
      { totalExpenses := 0, averageExpense := 0, expenseCount := 0,
        byCategory := [], byMonth := [] } ∧
    ((getExpenseSummary es expf).expenseCount = 0 →
      (getExpenseSummary es expf).averageExpense = 0) ∧
    ((getBalanceSummary es is expf incf).totalIncome = 0 →
      (getBalanceSummary es is expf incf).savingsRate = 0) := by
  refine ⟨?_, ?_, ?_⟩
  · have hempty : getExpenses [] f = [] := by
      cases f with
      | none => rfl
      | some fl => rw [getExpenses_some]; rfl
    simp [getExpenseSummary, hempty]
  · intro h
    simp only [getExpenseSummary] at h ⊢
    rw [h]
    simp
  · intro h
    simp only [getBalanceSummary] at h ⊢
    rw [h]
    simp

/-- Value sum of the category breakdown equals the summary's total. -/
theorem byCategory_valSum (es : List Expense) (f : Option ExpenseFilter) :
    valSum (getExpenseSummary es f).byCategory =
      (getExpenseSummary es f).totalExpenses := by
  simp only [getExpenseSummary]
  rw [valSum_foldl_upsert, foldl_add_map]
  simp [valSum]

/-- Summing the percentage fields over the mapped breakdown entries gives
the value sum divided by the total, scaled by `100`. -/
theorem map_percentage_sum (T : ℚ) (m : List (String × ℚ)) :
    ((m.map fun p =>
      ({ category := p.1, amount := p.2, percentage := p.2 / T * 100,
         color := colorOf p.1 } : SpendingByCategory)).map
        fun c => c.percentage).sum = valSum m / T * 100 := by
  induction m with
  | nil => simp [valSum]
  | cons p rest ih =>
    rw [List.map_cons, List.map_cons, List.sum_cons, ih, valSum_cons]
    ring

/-- Claim C3: over every filtered expense set whose total is positive and
whose category breakdown is non-empty, the percentages returned by
`getSpendingByCategory` sum to exactly `100` (the real-arithmetic model has
no floating-point error); when the total is `0`, every entry's percentage
is `0`. -/
theorem claim_C3_percentage_sum (es : List Expense) (f : Option ExpenseFilter) :
    (0 < (getExpenseSummary es f).totalExpenses →
      getSpendingByCategory es f ≠ [] →
      ((getSpendingByCategory es f).map fun c => c.percentage).sum = 100) ∧
    ((getExpenseSummary es f).totalExpenses = 0 →
      (getSpendingByCategory es f).map (fun c => c.percentage) =
        List.replicate (getSpendingByCategory es f).length 0) := by
  constructor
  · intro htot _
    have hperm := sortByKeyD_perm (fun s : SpendingByCategory => s.amount)
      ((getExpenseSummary es f).byCategory.map fun p =>
        { category := p.1, amount := p.2,
          percentage := if 0 < (getExpenseSummary es f).totalExpenses then
            p.2 / (getExpenseSummary es f).totalExpenses * 100 else 0,
          color := colorOf p.1 })
    have hsum := (hperm.map fun c : SpendingByCategory => c.percentage).sum_eq
    rw [show getSpendingByCategory es f =
      sortByKeyD (fun s : SpendingByCategory => s.amount)
        ((getExpenseSummary es f).byCategory.map fun p =>
          { category := p.1, amount := p.2,
            percentage := if 0 < (getExpenseSummary es f).totalExpenses then
              p.2 / (getExpenseSummary es f).totalExpenses * 100 else 0,
            color := colorOf p.1 }) from rfl]
    rw [hsum]
    simp only [if_pos htot]
    rw [map_percentage_sum, byCategory_valSum,
      div_self (ne_of_gt htot), one_mul]
  · intro htot
    have hl : ((getSpendingByCategory es f).map fun c => c.percentage).length =
        (getSpendingByCategory es f).length := List.length_map _ _
    rw [← hl]
    apply List.eq_replicate_of_mem
    intro b hb
    rcases List.mem_map.mp hb with ⟨c, hc, rfl⟩
    have hc2 : c ∈ (getExpenseSummary es f).byCategory.map fun p =>
        ({ category := p.1, amount := p.2,
           percentage := if 0 < (getExpenseSummary es f).totalExpenses then
             p.2 / (getExpenseSummary es f).totalExpenses * 100 else 0,
           color := colorOf p.1 } : SpendingByCategory) :=
      (sortByKeyD_perm _ _).mem_iff.mp hc
    rcases List.mem_map.mp hc2 with ⟨p, _, rfl⟩
    simp [htot]

section KeyFoldLemmas

variable {β : Type}

/-- Key membership after an `updAssoc` step. -/
theorem mem_keysOf_updAssoc (k : String) (f : β → β) (dflt : β)
    (m : List (String × β)) (d : String) :
    d ∈ keysOf (updAssoc k f dflt m) ↔ d ∈ keysOf m ∨ d = k := by
  rw [keysOf_updAssoc]
  by_cases hm : k ∈ keysOf m
  · simp only [if_pos hm]
    constructor
    · exact Or.inl
    · rintro (h | rfl)
      · exact h
      · exact hm
  · simp [if_neg hm, List.mem_append]

/-- Key membership after a fold of `updAssoc` steps. -/
theorem mem_keysOf_foldl_updAssoc {α : Type} (kf : α → String)
    (ff : α → β → β) (dflt : β) (l : List α) (m : List (String × β))
    (d : String) :
    d ∈ keysOf (l.foldl (fun acc x => updAssoc (kf x) (ff x) dflt acc) m) ↔
      d ∈ keysOf m ∨ d ∈ l.map kf := by
  induction l generalizing m with
  | nil => simp
  | cons x xs ih =>
    rw [List.foldl_cons, ih, mem_keysOf_updAssoc]
    simp only [List.map_cons, List.mem_cons]
    tauto

/-- Key duplicate-freeness after a fold of `updAssoc` steps. -/
theorem nodup_keysOf_foldl_updAssoc {α : Type} (kf : α → String)
    (ff : α → β → β) (dflt : β) (l : List α) (m : List (String × β))
    (h : (keysOf m).Nodup) :
    (keysOf (l.foldl (fun acc x => updAssoc (kf x) (ff x) dflt acc) m)).Nodup := by
  induction l generalizing m with
  | nil => exact h
  | cons x xs ih => exact ih _ (nodup_keysOf_updAssoc _ _ _ h)

end KeyFoldLemmas

section TrendLemmas

/-- Date sum over a cons cell. -/
theorem expSumOn_cons (e : Expense) (l : List Expense) (d : String) :
    expSumOn (e :: l) d = (if e.date = d then e.amount else 0) + expSumOn l d := by
  by_cases h : e.date = d <;> simp [expSumOn, List.filter_cons, h]

/-- Date sum over a cons cell, income side. -/
theorem incSumOn_cons (i : Income) (l : List Income) (d : String) :
    incSumOn (i :: l) d = (if i.date = d then i.amount else 0) + incSumOn l d := by
  by_cases h : i.date = d <;> simp [incSumOn, List.filter_cons, h]

/-- One expense step adds its amount to its own date's expense cell. -/
theorem dayExpAt_trendAddExpense (m : List (String × DayAcc)) (e : Expense)
    (d : String) :
    dayExpAt (trendAddExpense m e) d =
      if d = e.date then dayExpAt m d + e.amount else dayExpAt m d := by
  simp only [dayExpAt, trendAddExpense, findVal_updAssoc]
  by_cases h : d = e.date
  · subst h
    cases hf : findVal m e.date with
    | none => simp [hf]
    | some a => simp [hf]
  · simp [h]

/-- One expense step leaves every income cell unchanged. -/
theorem dayIncAt_trendAddExpense (m : List (String × DayAcc)) (e : Expense)
    (d : String) :
    dayIncAt (trendAddExpense m e) d = dayIncAt m d := by
  simp only [dayIncAt, trendAddExpense, findVal_updAssoc]
  by_cases h : d = e.date
  · subst h
    cases hf : findVal m e.date with
    | none => simp [hf]
    | some a => simp [hf]
  · simp [h]

/-- One income step adds its amount to its own date's income cell. -/
theorem dayIncAt_trendAddIncome (m : List (String × DayAcc)) (i : Income)
    (d : String) :
    dayIncAt (trendAddIncome m i) d =
      if d = i.date then dayIncAt m d + i.amount else dayIncAt m d := by
  simp only [dayIncAt, trendAddIncome, findVal_updAssoc]
  by_cases h : d = i.date
  · subst h
    cases hf : findVal m i.date with
    | none => simp [hf]
    | some a => simp [hf]
  · simp [h]

/-- One income step leaves every expense cell unchanged. -/
theorem dayExpAt_trendAddIncome (m : List (String × DayAcc)) (i : Income)
    (d : String) :
    dayExpAt (trendAddIncome m i) d = dayExpAt m d := by
  simp only [dayExpAt, trendAddIncome, findVal_updAssoc]
  by_cases h : d = i.date
  · subst h
    cases hf : findVal m i.date with
    | none => simp [hf]
    | some a => simp [hf]
  · simp [h]

/-- Folding the expenses accumulates each date's expense sum. -/
theorem dayExpAt_foldl_trendAddExpense (l : List Expense)
    (m : List (String × DayAcc)) (d : String) :
    dayExpAt (l.foldl trendAddExpense m) d = dayExpAt m d + expSumOn l d := by
  induction l generalizing m with
  | nil => simp [expSumOn]
  | cons e es ih =>
    rw [List.foldl_cons, ih, dayExpAt_trendAddExpense, expSumOn_cons]
    by_cases h : e.date = d
    · rw [if_pos h.symm, if_pos h]
      ring
    · rw [if_neg fun h2 => h h2.symm, if_neg h]
      ring

/-- Folding the expenses does not touch income cells. -/
theorem dayIncAt_foldl_trendAddExpense (l : List Expense)
    (m : List (String × DayAcc)) (d : String) :
    dayIncAt (l.foldl trendAddExpense m) d = dayIncAt m d := by
  induction l generalizing m with
  | nil => rfl
  | cons e es ih => rw [List.foldl_cons, ih, dayIncAt_trendAddExpense]

/-- Folding the income records accumulates each date's income sum. -/
theorem dayIncAt_foldl_trendAddIncome (l : List Income)
    (m : List (String × DayAcc)) (d : String) :
    dayIncAt (l.foldl trendAddIncome m) d = dayIncAt m d + incSumOn l d := by
  induction l generalizing m with
  | nil => simp [incSumOn]
  | cons i il ih =>
    rw [List.foldl_cons, ih, dayIncAt_trendAddIncome, incSumOn_cons]
    by_cases h : i.date = d
    · rw [if_pos h.symm, if_pos h]
      ring
    · rw [if_neg fun h2 => h h2.symm, if_neg h]
      ring

/-- Folding the income records does not touch expense cells. -/
theorem dayExpAt_foldl_trendAddIncome (l : List Income)
    (m : List (String × DayAcc)) (d : String) :
    dayExpAt (l.foldl trendAddIncome m) d = dayExpAt m d := by
  induction l generalizing m with
  | nil => rfl
  | cons i il ih => rw [List.foldl_cons, ih, dayExpAt_trendAddIncome]

/-- Keys reached by the expense fold are the previous keys plus the dates. -/
theorem mem_keysOf_foldl_trendAddExpense (l : List Expense)
    (m : List (String × DayAcc)) (d : String) :
    d ∈ keysOf (l.foldl trendAddExpense m) ↔
      d ∈ keysOf m ∨ d ∈ l.map fun e => e.date := by
  rw [show trendAddExpense = fun acc e =>
    updAssoc e.date (fun a => { a with expenses := a.expenses + e.amount })
      { income := 0, expenses := 0 } acc from rfl]
  exact mem_keysOf_foldl_updAssoc _ _ _ l m d

/-- Keys reached by the income fold are the previous keys plus the dates. -/
theorem mem_keysOf_foldl_trendAddIncome (l : List Income)
    (m : List (String × DayAcc)) (d : String) :
    d ∈ keysOf (l.foldl trendAddIncome m) ↔
      d ∈ keysOf m ∨ d ∈ l.map fun i => i.date := by
  rw [show trendAddIncome = fun acc i =>
    updAssoc i.date (fun a => { a with income := a.income + i.amount })
      { income := 0, expenses := 0 } acc from rfl]
  exact mem_keysOf_foldl_updAssoc _ _ _ l m d

/-- The expense fold keeps the accumulator keys duplicate-free. -/
theorem nodup_keysOf_foldl_trendAddExpense (l : List Expense)
    (m : List (String × DayAcc)) (h : (keysOf m).Nodup) :
    (keysOf (l.foldl trendAddExpense m)).Nodup := by
  rw [show trendAddExpense = fun acc e =>
    updAssoc e.date (fun a => { a with expenses := a.expenses + e.amount })
      { income := 0, expenses := 0 } acc from rfl]
  exact nodup_keysOf_foldl_updAssoc _ _ _ l m h

/-- The income fold keeps the accumulator keys duplicate-free. -/
theorem nodup_keysOf_foldl_trendAddIncome (l : List Income)
    (m : List (String × DayAcc)) (h : (keysOf m).Nodup) :
    (keysOf (l.foldl trendAddIncome m)).Nodup := by
  rw [show trendAddIncome = fun acc i =>
    updAssoc i.date (fun a => { a with income := a.income + i.amount })
      { income := 0, expenses := 0 } acc from rfl]
  exact nodup_keysOf_foldl_updAssoc _ _ _ l m h

end TrendLemmas

/-- Core correctness of the trend accumulation and emission of
`getSpendingTrends`, stated over the already-filtered record lists. -/
theorem trends_core (esF : List Expense) (isF : List Income)
    (m : List (String × DayAcc)) (r : List TrendDataPoint)
    (hm : m = isF.foldl trendAddIncome (esF.foldl trendAddExpense []))
    (hr : r = sortByKey (fun p : TrendDataPoint => p.date.data)
      (m.map fun p =>
        { date := p.1
          income := p.2.income
          expenses := p.2.expenses
          balance := p.2.income - p.2.expenses })) :
    r.Pairwise (fun a b => a.date.data < b.date.data) ∧
    (∀ d : String, (∃ p ∈ r, p.date = d) ↔
      ((d ∈ esF.map fun e => e.date) ∨ (d ∈ isF.map fun i => i.date))) ∧
    ∀ p ∈ r, p.expenses = expSumOn esF p.date ∧
      p.income = incSumOn isF p.date ∧ p.balance = p.income - p.expenses := by
  have hnodupm : (keysOf m).Nodup := by
    rw [hm]
    exact nodup_keysOf_foldl_trendAddIncome _ _
      (nodup_keysOf_foldl_trendAddExpense _ _ (by simp [keysOf]))
  have hkeysm : ∀ d, d ∈ keysOf m ↔
      ((d ∈ esF.map fun e => e.date) ∨ (d ∈ isF.map fun i => i.date)) := by
    intro d
    rw [hm, mem_keysOf_foldl_trendAddIncome, mem_keysOf_foldl_trendAddExpense]
    simp [keysOf]
  have hexpm : ∀ d, dayExpAt m d = expSumOn esF d := by
    intro d
    rw [hm, dayExpAt_foldl_trendAddIncome, dayExpAt_foldl_trendAddExpense]
    simp [dayExpAt, findVal]
  have hincm : ∀ d, dayIncAt m d = incSumOn isF d := by
    intro d
    rw [hm, dayIncAt_foldl_trendAddIncome, dayIncAt_foldl_trendAddExpense]
    simp [dayIncAt, findVal]
  have hperm : r.Perm (m.map fun p =>
      ({ date := p.1
         income := p.2.income
         expenses := p.2.expenses
         balance := p.2.income - p.2.expenses } : TrendDataPoint)) := by
    rw [hr]
    exact sortByKey_perm _ _
  have hdates : (m.map fun p =>
      ({ date := p.1
         income := p.2.income
         expenses := p.2.expenses
         balance := p.2.income - p.2.expenses } : TrendDataPoint)).map
        (fun p => p.date) = keysOf m := by
    rw [List.map_map]
    rfl
  refine ⟨?_, ?_, ?_⟩
  · have hpw : r.Pairwise fun a b => a.date.data ≤ b.date.data := by
      rw [hr]
      exact sortByKey_pairwise _ _
    have hnd : (r.map fun p => p.date).Nodup := by
      apply ((hperm.map fun p : TrendDataPoint => p.date).nodup_iff).mpr
      rw [hdates]
      exact hnodupm
    have hne : r.Pairwise fun a b => a.date ≠ b.date := List.pairwise_map.mp hnd
    exact (hpw.and hne).imp fun hab =>
      lt_of_le_of_ne hab.1 fun hdata => hab.2 (String.ext hdata)
  · intro d
    constructor
    · rintro ⟨p, hp, rfl⟩
      rcases List.mem_map.mp (hperm.mem_iff.mp hp) with ⟨q, hq, rfl⟩
      have hqk : q.1 ∈ keysOf m := List.mem_map_of_mem Prod.fst hq
      exact (hkeysm q.1).mp hqk
    · intro hd
      have hd2 : d ∈ keysOf m := (hkeysm d).mpr hd
      simp only [keysOf] at hd2
      rcases List.mem_map.mp hd2 with ⟨q, hq, rfl⟩
      exact ⟨_, hperm.mem_iff.mpr (List.mem_map_of_mem _ hq), rfl⟩
  · intro p hp
    rcases List.mem_map.mp (hperm.mem_iff.mp hp) with ⟨q, hq, rfl⟩
    obtain ⟨k, a⟩ := q
    have hfv : findVal m k = some a := findVal_of_mem hnodupm hq
    have hexp : dayExpAt m k = a.expenses := by simp [dayExpAt, hfv]
    have hinc : dayIncAt m k = a.income := by simp [dayIncAt, hfv]
    refine ⟨?_, ?_, rfl⟩
    · show a.expenses = expSumOn esF k
      rw [← hexp, hexpm]
    · show a.income = incSumOn isF k
      rw [← hinc, hincm]

/-- Claim C4: `getSpendingTrends` returns exactly one point per distinct
date occurring in the filtered expense or income records (the output is
strictly ascending by date string, so each date appears once), each point's
`expenses` and `income` are the sums of that date's amounts on the
respective side (`0` when that side has no record), and
`balance = income - expenses` at every point. -/
theorem claim_C4_spending_trends (es : List Expense) (is : List Income)
    (f : Option TrendFilter) :
    (getSpendingTrends es is f).Pairwise
      (fun a b => a.date.data < b.date.data) ∧
    (∀ d : String, (∃ p ∈ getSpendingTrends es is f, p.date = d) ↔
      ((d ∈ (getExpenses es (f.map trendExpenseFilter)).map fun e => e.date) ∨
       (d ∈ (getIncome is (f.map trendIncomeFilter)).map fun i => i.date))) ∧
    ∀ p ∈ getSpendingTrends es is f,
      p.expenses = expSumOn (getExpenses es (f.map trendExpenseFilter)) p.date ∧
      p.income = incSumOn (getIncome is (f.map trendIncomeFilter)) p.date ∧
      p.balance = p.income - p.expenses :=
  trends_core (getExpenses es (f.map trendExpenseFilter))
    (getIncome is (f.map trendIncomeFilter)) _ _ rfl rfl

section MonthLemmas

/-- Month sum over a cons cell, expense side. -/
theorem expSumInMonth_cons (e : Expense) (l : List Expense) (mo : String) :
    expSumInMonth (e :: l) mo =
      (if String.mk (e.date.data.take 7) = mo then e.amount else 0) +
        expSumInMonth l mo := by
  by_cases h : String.mk (e.date.data.take 7) = mo <;>
    simp [expSumInMonth, List.filter_cons, h]

/-- Month sum over a cons cell, income side. -/
theorem incSumInMonth_cons (i : Income) (l : List Income) (mo : String) :
    incSumInMonth (i :: l) mo =
      (if String.mk (i.date.data.take 7) = mo then i.amount else 0) +
        incSumInMonth l mo := by
  by_cases h : String.mk (i.date.data.take 7) = mo <;>
    simp [incSumInMonth, List.filter_cons, h]

/-- One expense step adds its amount to its own month's expense cell. -/
theorem monthExpAt_monthAddExpense (m : List (String × MonthAcc)) (e : Expense)
    (mo : String) :
    monthExpAt (monthAddExpense m e) mo =
      if mo = String.mk (e.date.data.take 7) then monthExpAt m mo + e.amount
      else monthExpAt m mo := by
  simp only [monthExpAt, monthAddExpense, findVal_updAssoc]
  by_cases h : mo = String.mk (e.date.data.take 7)
  · subst h
    cases hf : findVal m (String.mk (e.date.data.take 7)) with
    | none => simp [hf]
    | some a => simp [hf]
  · simp [h]

/-- One expense step leaves every month's income cell unchanged. -/
theorem monthIncAt_monthAddExpense (m : List (String × MonthAcc)) (e : Expense)
    (mo : String) :
    monthIncAt (monthAddExpense m e) mo = monthIncAt m mo := by
  simp only [monthIncAt, monthAddExpense, findVal_updAssoc]
  by_cases h : mo = String.mk (e.date.data.take 7)
  · subst h
    cases hf : findVal m (String.mk (e.date.data.take 7)) with
    | none => simp [hf]
    | some a => simp [hf]
  · simp [h]

/-- One expense step upserts its category into its own month's map. -/
theorem monthCatsAt_monthAddExpense (m : List (String × MonthAcc)) (e : Expense)
    (mo : String) :
    monthCatsAt (monthAddExpense m e) mo =
      if mo = String.mk (e.date.data.take 7) then
        upsert e.category e.amount (monthCatsAt m mo)
      else monthCatsAt m mo := by
  simp only [monthCatsAt, monthAddExpense, findVal_updAssoc]
  by_cases h : mo = String.mk (e.date.data.take 7)
  · subst h
    cases hf : findVal m (String.mk (e.date.data.take 7)) with
    | none => simp [hf]
    | some a => simp [hf]
  · simp [h]

/-- One income step adds its amount to its own month's income cell. -/
theorem monthIncAt_monthAddIncome (m : List (String × MonthAcc)) (i : Income)
    (mo : String) :
    monthIncAt (monthAddIncome m i) mo =
      if mo = String.mk (i.date.data.take 7) then monthIncAt m mo + i.amount
      else monthIncAt m mo := by
  simp only [monthIncAt, monthAddIncome, findVal_updAssoc]
  by_cases h : mo = String.mk (i.date.data.take 7)
  · subst h
    cases hf : findVal m (String.mk (i.date.data.take 7)) with
    | none => simp [hf]
    | some a => simp [hf]
  · simp [h]

/-- One income step leaves every month's expense cell unchanged. -/
theorem monthExpAt_monthAddIncome (m : List (String × MonthAcc)) (i : Income)
    (mo : String) :
    monthExpAt (monthAddIncome m i) mo = monthExpAt m mo := by
  simp only [monthExpAt, monthAddIncome, findVal_updAssoc]
  by_cases h : mo = String.mk (i.date.data.take 7)
  · subst h
    cases hf : findVal m (String.mk (i.date.data.take 7)) with
    | none => simp [hf]
    | some a => simp [hf]
  · simp [h]

/-- One income step leaves every month's category map unchanged. -/
theorem monthCatsAt_monthAddIncome (m : List (String × MonthAcc)) (i : Income)
    (mo : String) :
    monthCatsAt (monthAddIncome m i) mo = monthCatsAt m mo := by
  simp only [monthCatsAt, monthAddIncome, findVal_updAssoc]
  by_cases h : mo = String.mk (i.date.data.take 7)
  · subst h
    cases hf : findVal m (String.mk (i.date.data.take 7)) with
    | none => simp [hf]
    | some a => simp [hf]
  · simp [h]

/-- Folding the expenses accumulates each month's expense sum. -/
theorem monthExpAt_foldl_monthAddExpense (l : List Expense)
    (m : List (String × MonthAcc)) (mo : String) :
    monthExpAt (l.foldl monthAddExpense m) mo =
      monthExpAt m mo + expSumInMonth l mo := by
  induction l generalizing m with
  | nil => simp [expSumInMonth]
  | cons e es ih =>
    rw [List.foldl_cons, ih, monthExpAt_monthAddExpense, expSumInMonth_cons]
    by_cases h : String.mk (e.date.data.take 7) = mo
    · rw [if_pos h.symm, if_pos h]
      ring
    · rw [if_neg fun h2 => h h2.symm, if_neg h]
      ring

/-- Folding the expenses does not touch income cells. -/
theorem monthIncAt_foldl_monthAddExpense (l : List Expense)
    (m : List (String × MonthAcc)) (mo : String) :
    monthIncAt (l.foldl monthAddExpense m) mo = monthIncAt m mo := by
  induction l generalizing m with
  | nil => rfl
  | cons e es ih => rw [List.foldl_cons, ih, monthIncAt_monthAddExpense]

/-- Folding the expenses builds each month's category map as the fold of
`upsert`s over the expenses of that month. -/
theorem monthCatsAt_foldl_monthAddExpense (l : List Expense)
    (m : List (String × MonthAcc)) (mo : String) :
    monthCatsAt (l.foldl monthAddExpense m) mo =
      (l.filter fun e => decide (String.mk (e.date.data.take 7) = mo)).foldl
        (fun cs e => upsert e.category e.amount cs) (monthCatsAt m mo) := by
  induction l generalizing m with
  | nil => rfl
  | cons e es ih =>
    rw [List.foldl_cons, ih, monthCatsAt_monthAddExpense, List.filter_cons]
    by_cases h : String.mk (e.date.data.take 7) = mo
    · rw [if_pos h.symm]
      simp [h]
    · rw [if_neg fun h2 => h h2.symm]
      simp [h]

/-- Folding the income records accumulates each month's income sum. -/
theorem monthIncAt_foldl_monthAddIncome (l : List Income)
    (m : List (String × MonthAcc)) (mo : String) :
    monthIncAt (l.foldl monthAddIncome m) mo =
      monthIncAt m mo + incSumInMonth l mo := by
  induction l generalizing m with
  | nil => simp [incSumInMonth]
  | cons i il ih =>
    rw [List.foldl_cons, ih, monthIncAt_monthAddIncome, incSumInMonth_cons]
    by_cases h : String.mk (i.date.data.take 7) = mo
    · rw [if_pos h.symm, if_pos h]
      ring
    · rw [if_neg fun h2 => h h2.symm, if_neg h]
      ring

/-- Folding the income records does not touch expense cells. -/
theorem monthExpAt_foldl_monthAddIncome (l : List Income)
    (m : List (String × MonthAcc)) (mo : String) :
    monthExpAt (l.foldl monthAddIncome m) mo = monthExpAt m mo := by
  induction l generalizing m with
  | nil => rfl
  | cons i il ih => rw [List.foldl_cons, ih, monthExpAt_monthAddIncome]

/-- Folding the income records does not touch category maps. -/
theorem monthCatsAt_foldl_monthAddIncome (l : List Income)
    (m : List (String × MonthAcc)) (mo : String) :
    monthCatsAt (l.foldl monthAddIncome m) mo = monthCatsAt m mo := by
  induction l generalizing m with
  | nil => rfl
  | cons i il ih => rw [List.foldl_cons, ih, monthCatsAt_monthAddIncome]

/-- Keys reached by the expense fold are the previous keys plus the month
keys of the processed expenses. -/
theorem mem_keysOf_foldl_monthAddExpense (l : List Expense)
    (m : List (String × MonthAcc)) (mo : String) :
    mo ∈ keysOf (l.foldl monthAddExpense m) ↔
      mo ∈ keysOf m ∨ mo ∈ l.map fun e => String.mk (e.date.data.take 7) := by
  rw [show monthAddExpense = fun acc e =>
    updAssoc (String.mk (e.date.data.take 7))
      (fun a =>
        { a with
          expenses := a.expenses + e.amount
          categories := upsert e.category e.amount a.categories })
      { income := 0, expenses := 0, categories := [] } acc from rfl]
  exact mem_keysOf_foldl_updAssoc _ _ _ l m mo

/-- Keys reached by the income fold are the previous keys plus the month
keys of the processed income records. -/
theorem mem_keysOf_foldl_monthAddIncome (l : List Income)
    (m : List (String × MonthAcc)) (mo : String) :
    mo ∈ keysOf (l.foldl monthAddIncome m) ↔
      mo ∈ keysOf m ∨ mo ∈ l.map fun i => String.mk (i.date.data.take 7) := by
  rw [show monthAddIncome = fun acc i =>
    updAssoc (String.mk (i.date.data.take 7))
      (fun a => { a with income := a.income + i.amount })
      { income := 0, expenses := 0, categories := [] } acc from rfl]
  exact mem_keysOf_foldl_updAssoc _ _ _ l m mo

/-- The expense fold keeps the month keys duplicate-free. -/
theorem nodup_keysOf_foldl_monthAddExpense (l : List Expense)
    (m : List (String × MonthAcc)) (h : (keysOf m).Nodup) :
    (keysOf (l.foldl monthAddExpense m)).Nodup := by
  rw [show monthAddExpense = fun acc e =>
    updAssoc (String.mk (e.date.data.take 7))
      (fun a =>
        { a with
          expenses := a.expenses + e.amount
          categories := upsert e.category e.amount a.categories })
      { income := 0, expenses := 0, categories := [] } acc from rfl]
  exact nodup_keysOf_foldl_updAssoc _ _ _ l m h

/-- The income fold keeps the month keys duplicate-free. -/
theorem nodup_keysOf_foldl_monthAddIncome (l : List Income)
    (m : List (String × MonthAcc)) (h : (keysOf m).Nodup) :
    (keysOf (l.foldl monthAddIncome m)).Nodup := by
  rw [show monthAddIncome = fun acc i =>
    updAssoc (String.mk (i.date.data.take 7))
      (fun a => { a with income := a.income + i.amount })
      { income := 0, expenses := 0, categories := [] } acc from rfl]
  exact nodup_keysOf_foldl_updAssoc _ _ _ l m h

/-- Category lookup in a fold of category `upsert`s: absent categories give
`none`, present ones their amount sum. -/
theorem findVal_catsFold (lm : List Expense) (c : String) :
    findVal (lm.foldl (fun cs e => upsert e.category e.amount cs) []) c =
      if (lm.filter fun e => decide (e.category = c)).isEmpty then none
      else some (((lm.filter fun e => decide (e.category = c)).map
        fun e => e.amount).sum) := by
  rw [show (fun cs (e : Expense) => upsert e.category e.amount cs) =
    fun acc e => updAssoc e.category (fun b => b + e.amount) 0 acc from rfl]
  rw [findVal_foldl_updAssoc]
  by_cases he : (lm.filter fun e => decide (e.category = c)).isEmpty
  · simp [he, findVal]
  · simp [he, findVal, foldl_add_map]

/-- The keys of a fold of category `upsert`s are the processed categories. -/
theorem mem_keysOf_catsFold (lm : List Expense) (c : String) :
    c ∈ keysOf (lm.foldl (fun cs e => upsert e.category e.amount cs) []) ↔
      c ∈ lm.map fun e => e.category := by
  rw [show (fun cs (e : Expense) => upsert e.category e.amount cs) =
    fun acc e => updAssoc e.category (fun b => b + e.amount) 0 acc from rfl]
  rw [mem_keysOf_foldl_updAssoc]
  simp [keysOf]

/-- The keys of a fold of category `upsert`s are duplicate-free. -/
theorem nodup_keysOf_catsFold (lm : List Expense) :
    (keysOf (lm.foldl (fun cs e => upsert e.category e.amount cs) [])).Nodup := by
  rw [show (fun cs (e : Expense) => upsert e.category e.amount cs) =
    fun acc e => updAssoc e.category (fun b => b + e.amount) 0 acc from rfl]
  exact nodup_keysOf_foldl_updAssoc _ _ _ lm [] (by simp [keysOf])

end MonthLemmas

/-- Core correctness of the monthly breakdown builder, stated over the
record lists fed into the accumulation (the unfiltered, date-sorted store
copies). -/
theorem monthly_core (esA : List Expense) (isA : List Income) (months : Nat)
    (m : List (String × MonthAcc)) (r : List MonthlyBreakdown)
    (hm : m = isA.foldl monthAddIncome (esA.foldl monthAddExpense []))
    (hr : r = (sortByKeyD (fun mb : MonthlyBreakdown => mb.month.data)
      (m.map fun p =>
        { month := p.1
          income := p.2.income
          expenses := p.2.expenses
          savings := p.2.income - p.2.expenses
          topCategories := (sortByKeyD (fun c : CategoryAmount => c.amount)
            (p.2.categories.map fun q => CategoryAmount.mk q.1 q.2)).take 3
        })).take months) :
    r.length ≤ months ∧
    r.Pairwise (fun a b => b.month.data < a.month.data) ∧
    (∀ mb ∈ r,
      mb.savings = mb.income - mb.expenses ∧
      mb.expenses = expSumInMonth esA mb.month ∧
      mb.income = incSumInMonth isA mb.month ∧
      mb.topCategories.length ≤ 3 ∧
      mb.topCategories.Pairwise (fun a b => b.amount ≤ a.amount) ∧
      (∀ t ∈ mb.topCategories,
        t.amount = catSumInMonth esA mb.month t.name ∧
        ∃ e ∈ esA, String.mk (e.date.data.take 7) = mb.month ∧
          e.category = t.name) ∧
      (∀ c : String,
        (∃ e ∈ esA, String.mk (e.date.data.take 7) = mb.month ∧
          e.category = c) →
        (∀ t ∈ mb.topCategories, t.name ≠ c) →
        ∀ t ∈ mb.topCategories, catSumInMonth esA mb.month c ≤ t.amount)) ∧
    (∀ mb ∈ r,
      (∃ e ∈ esA, String.mk (e.date.data.take 7) = mb.month) ∨
      ∃ i ∈ isA, String.mk (i.date.data.take 7) = mb.month) ∧
    ∀ mo : String,
      ((∃ e ∈ esA, String.mk (e.date.data.take 7) = mo) ∨
        ∃ i ∈ isA, String.mk (i.date.data.take 7) = mo) →
      (∀ mb ∈ r, mb.month ≠ mo) →
      ∀ mb ∈ r, mo.data < mb.month.data := by
  have hnodupm : (keysOf m).Nodup := by
    rw [hm]
    exact nodup_keysOf_foldl_monthAddIncome _ _
      (nodup_keysOf_foldl_monthAddExpense _ _ (by simp [keysOf]))
  have hkeysm : ∀ mo, mo ∈ keysOf m ↔
      ((mo ∈ esA.map fun e => String.mk (e.date.data.take 7)) ∨
        mo ∈ isA.map fun i => String.mk (i.date.data.take 7)) := by
    intro mo
    rw [hm, mem_keysOf_foldl_monthAddIncome, mem_keysOf_foldl_monthAddExpense]
    simp [keysOf]
  have hexpm : ∀ mo, monthExpAt m mo = expSumInMonth esA mo := by
    intro mo
    rw [hm, monthExpAt_foldl_monthAddIncome, monthExpAt_foldl_monthAddExpense]
    simp [monthExpAt, findVal]
  have hincm : ∀ mo, monthIncAt m mo = incSumInMonth isA mo := by
    intro mo
    rw [hm, monthIncAt_foldl_monthAddIncome, monthIncAt_foldl_monthAddExpense]
    simp [monthIncAt, findVal]
  have hcatsm : ∀ mo, monthCatsAt m mo =
      (esA.filter fun e => decide (String.mk (e.date.data.take 7) = mo)).foldl
        (fun cs e => upsert e.category e.amount cs) [] := by
    intro mo
    rw [hm, monthCatsAt_foldl_monthAddIncome, monthCatsAt_foldl_monthAddExpense]
    simp [monthCatsAt, findVal]
  have hperm0 := sortByKeyD_perm (fun mb : MonthlyBreakdown => mb.month.data)
    (m.map fun p =>
      { month := p.1
        income := p.2.income
        expenses := p.2.expenses
        savings := p.2.income - p.2.expenses
        topCategories := (sortByKeyD (fun c : CategoryAmount => c.amount)
          (p.2.categories.map fun q => CategoryAmount.mk q.1 q.2)).take 3
      })
  have hsorted := sortByKeyD_pairwise (fun mb : MonthlyBreakdown => mb.month.data)
    (m.map fun p =>
      { month := p.1
        income := p.2.income
        expenses := p.2.expenses
        savings := p.2.income - p.2.expenses
        topCategories := (sortByKeyD (fun c : CategoryAmount => c.amount)
          (p.2.categories.map fun q => CategoryAmount.mk q.1 q.2)).take 3
      })
  have hmonths : ((m.map fun p =>
      ({ month := p.1
         income := p.2.income
         expenses := p.2.expenses
         savings := p.2.income - p.2.expenses
         topCategories := (sortByKeyD (fun c : CategoryAmount => c.amount)
           (p.2.categories.map fun q => CategoryAmount.mk q.1 q.2)).take 3
       } : MonthlyBreakdown)).map fun mb => mb.month) = keysOf m := by
    rw [List.map_map]
    rfl
  have hstrict : (sortByKeyD (fun mb : MonthlyBreakdown => mb.month.data)
      (m.map fun p =>
        { month := p.1
          income := p.2.income
          expenses := p.2.expenses
          savings := p.2.income - p.2.expenses
          topCategories := (sortByKeyD (fun c : CategoryAmount => c.amount)
            (p.2.categories.map fun q => CategoryAmount.mk q.1 q.2)).take 3
        })).Pairwise (fun a b => b.month.data < a.month.data) := by
    have hnd : ((sortByKeyD (fun mb : MonthlyBreakdown => mb.month.data)
        (m.map fun p =>
          { month := p.1
            income := p.2.income
            expenses := p.2.expenses
            savings := p.2.income - p.2.expenses
            topCategories := (sortByKeyD (fun c : CategoryAmount => c.amount)
              (p.2.categories.map fun q => CategoryAmount.mk q.1 q.2)).take 3
          })).map fun mb => mb.month).Nodup := by
      apply ((hperm0.map fun mb : MonthlyBreakdown => mb.month).nodup_iff).mpr
      rw [hmonths]
      exact hnodupm
    have hne := List.pairwise_map.mp hnd
    exact (hsorted.and hne).imp fun hab =>
      lt_of_le_of_ne hab.1 fun h2 => hab.2 (String.ext h2).symm
  refine ⟨?_, ?_, ?_, ?_, ?_⟩
  · rw [hr, List.length_take]
    exact min_le_left _ _
  · rw [hr]
    exact hstrict.sublist (List.take_sublist _ _)
  · intro mb hmb
    rw [hr] at hmb
    have hmb1 := (List.take_sublist _ _).subset hmb
    rcases List.mem_map.mp (hperm0.mem_iff.mp hmb1) with ⟨q, hq, rfl⟩
    obtain ⟨mo, acc⟩ := q
    have hfv : findVal m mo = some acc := findVal_of_mem hnodupm hq
    have hacc_exp : monthExpAt m mo = acc.expenses := by simp [monthExpAt, hfv]
    have hacc_inc : monthIncAt m mo = acc.income := by simp [monthIncAt, hfv]
    have hacc_cats : acc.categories =
        (esA.filter fun e =>
          decide (String.mk (e.date.data.take 7) = mo)).foldl
          (fun cs e => upsert e.category e.amount cs) [] := by
      have h1 : monthCatsAt m mo = acc.categories := by simp [monthCatsAt, hfv]
      rw [← h1, hcatsm]
    have hpermC := sortByKeyD_perm (fun c : CategoryAmount => c.amount)
      (acc.categories.map fun q => CategoryAmount.mk q.1 q.2)
    have hsortedC := sortByKeyD_pairwise (fun c : CategoryAmount => c.amount)
      (acc.categories.map fun q => CategoryAmount.mk q.1 q.2)
    refine ⟨rfl, ?_, ?_, ?_, ?_, ?_, ?_⟩
    · show acc.expenses = expSumInMonth esA mo
      rw [← hacc_exp, hexpm]
    · show acc.income = incSumInMonth isA mo
      rw [← hacc_inc, hincm]
    · show ((sortByKeyD (fun c : CategoryAmount => c.amount)
        (acc.categories.map fun q => CategoryAmount.mk q.1 q.2)).take 3).length ≤ 3
      rw [List.length_take]
      exact min_le_left _ _
    · exact hsortedC.sublist (List.take_sublist _ _)
    · intro t ht
      have ht1 := (List.take_sublist _ _).subset ht
      rcases List.mem_map.mp (hpermC.mem_iff.mp ht1) with ⟨cv, hcv, rfl⟩
      obtain ⟨c, v⟩ := cv
      have hcv2 : (c, v) ∈ (esA.filter fun e =>
          decide (String.mk (e.date.data.take 7) = mo)).foldl
          (fun cs e => upsert e.category e.amount cs) [] := hacc_cats ▸ hcv
      have hfvc := findVal_of_mem (nodup_keysOf_catsFold _) hcv2
      rw [findVal_catsFold] at hfvc
      constructor
      · show v = catSumInMonth esA mo c
        by_cases he : ((esA.filter fun e =>
            decide (String.mk (e.date.data.take 7) = mo)).filter
            fun e => decide (e.category = c)).isEmpty
        · rw [if_pos he] at hfvc
          cases hfvc
        · rw [if_neg he] at hfvc
          exact (Option.some.injEq .. ▸ hfvc).symm
      · have hck : c ∈ keysOf ((esA.filter fun e =>
            decide (String.mk (e.date.data.take 7) = mo)).foldl
            (fun cs e => upsert e.category e.amount cs) []) :=
          List.mem_map_of_mem Prod.fst hcv2
        rcases List.mem_map.mp ((mem_keysOf_catsFold _ _).mp hck)
          with ⟨e, he, hec⟩
        refine ⟨e, List.mem_of_mem_filter he, ?_, hec⟩
        have hde : String.mk (e.date.data.take 7) = mo := by
          have h3 := List.of_mem_filter he
          simpa using h3
        exact hde
    · rintro c ⟨e, he, hemo, hecat⟩ hnot t ht
      have helm : e ∈ esA.filter fun e =>
          decide (String.mk (e.date.data.take 7) = mo) :=
        List.mem_filter.mpr ⟨he, decide_eq_true hemo⟩
      have hck : c ∈ keysOf ((esA.filter fun e =>
          decide (String.mk (e.date.data.take 7) = mo)).foldl
          (fun cs e => upsert e.category e.amount cs) []) := by
        apply (mem_keysOf_catsFold _ _).mpr
        exact hecat ▸ List.mem_map_of_mem (fun e => e.category) helm
      cases hfvc : findVal ((esA.filter fun e =>
          decide (String.mk (e.date.data.take 7) = mo)).foldl
          (fun cs e => upsert e.category e.amount cs) []) c with
      | none => exact absurd hck ((findVal_eq_none_iff _ _).mp hfvc)
      | some v' =>
        have hvv : v' = catSumInMonth esA mo c := by
          have h2 := hfvc
          rw [findVal_catsFold] at h2
          by_cases he2 : ((esA.filter fun e =>
              decide (String.mk (e.date.data.take 7) = mo)).filter
              fun e => decide (e.category = c)).isEmpty
          · rw [if_pos he2] at h2
            cases h2
          · rw [if_neg he2] at h2
            exact (Option.some.injEq .. ▸ h2).symm
        have hmemE : CategoryAmount.mk c v' ∈
            (acc.categories.map fun q => CategoryAmount.mk q.1 q.2) := by
          rw [hacc_cats]
          exact List.mem_map_of_mem _ (mem_of_findVal hfvc)
        have hmemS := hpermC.mem_iff.mpr hmemE
        rw [← List.take_append_drop 3 (sortByKeyD (fun c : CategoryAmount =>
          c.amount) (acc.categories.map fun q => CategoryAmount.mk q.1 q.2))]
          at hmemS
        rcases List.mem_append.mp hmemS with hin | hin
        · exact absurd rfl (hnot _ hin)
        · have hSC : (List.take 3 (sortByKeyD (fun c : CategoryAmount =>
              c.amount) (acc.categories.map fun q =>
                CategoryAmount.mk q.1 q.2)) ++
              List.drop 3 (sortByKeyD (fun c : CategoryAmount => c.amount)
                (acc.categories.map fun q =>
                  CategoryAmount.mk q.1 q.2))).Pairwise
                (fun a b => b.amount ≤ a.amount) := by
            rw [List.take_append_drop]
            exact hsortedC
          have hap := List.pairwise_append.mp hSC
          have hle := hap.2.2 t ht _ hin
          rw [hvv] at hle
          exact hle
  · intro mb hmb
    rw [hr] at hmb
    have hmb1 := (List.take_sublist _ _).subset hmb
    rcases List.mem_map.mp (hperm0.mem_iff.mp hmb1) with ⟨q, hq, rfl⟩
    have hqk : q.1 ∈ keysOf m := List.mem_map_of_mem Prod.fst hq
    rcases (hkeysm q.1).mp hqk with h | h
    · rcases List.mem_map.mp h with ⟨e, he, heq⟩
      exact Or.inl ⟨e, he, heq⟩
    · rcases List.mem_map.mp h with ⟨i, hi, heq⟩
      exact Or.inr ⟨i, hi, heq⟩
  · intro mo hocc hnot mb hmb
    have hmo : mo ∈ keysOf m := by
      apply (hkeysm mo).mpr
      rcases hocc with ⟨e, he, heq⟩ | ⟨i, hi, heq⟩
      · exact Or.inl (heq ▸ List.mem_map_of_mem _ he)
      · exact Or.inr (heq ▸ List.mem_map_of_mem _ hi)
    simp only [keysOf] at hmo
    rcases List.mem_map.mp hmo with ⟨q, hq, hq1⟩
    have hqS := hperm0.mem_iff.mpr (List.mem_map_of_mem (fun p =>
      ({ month := p.1
         income := p.2.income
         expenses := p.2.expenses
         savings := p.2.income - p.2.expenses
         topCategories := (sortByKeyD (fun c : CategoryAmount => c.amount)
           (p.2.categories.map fun q => CategoryAmount.mk q.1 q.2)).take 3
       } : MonthlyBreakdown)) hq)
    rw [← List.take_append_drop months (sortByKeyD (fun mb : MonthlyBreakdown =>
      mb.month.data) (m.map fun p =>
        { month := p.1
          income := p.2.income
          expenses := p.2.expenses
          savings := p.2.income - p.2.expenses
          topCategories := (sortByKeyD (fun c : CategoryAmount => c.amount)
            (p.2.categories.map fun q => CategoryAmount.mk q.1 q.2)).take 3
        }))] at hqS
    rcases List.mem_append.mp hqS with hin | hin
    · exfalso
      apply hnot _ (hr ▸ hin)
      exact hq1
    · have hSM : (List.take months (sortByKeyD (fun mb : MonthlyBreakdown =>
          mb.month.data) (m.map fun p =>
            { month := p.1
              income := p.2.income
              expenses := p.2.expenses
              savings := p.2.income - p.2.expenses
              topCategories := (sortByKeyD (fun c : CategoryAmount => c.amount)
                (p.2.categories.map fun q => CategoryAmount.mk q.1 q.2)).take 3
            })) ++
          List.drop months (sortByKeyD (fun mb : MonthlyBreakdown =>
            mb.month.data) (m.map fun p =>
              { month := p.1
                income := p.2.income
                expenses := p.2.expenses
                savings := p.2.income - p.2.expenses
                topCategories := (sortByKeyD (fun c : CategoryAmount =>
                  c.amount)
                  (p.2.categories.map fun q =>
                    CategoryAmount.mk q.1 q.2)).take 3
              }))).Pairwise (fun a b => b.month.data < a.month.data) := by
        rw [List.take_append_drop]
        exact hstrict
      have hap := List.pairwise_append.mp hSM
      have hlt := hap.2.2 mb (hr ▸ hmb) _ hin
      show mo.data < mb.month.data
      rw [← hq1]
      exact hlt

/-- Month sums are invariant under permutation of the record list. -/
theorem expSumInMonth_perm {l1 l2 : List Expense} (h : l1.Perm l2)
    (mo : String) : expSumInMonth l1 mo = expSumInMonth l2 mo :=
  ((h.filter _).map _).sum_eq

/-- Month sums are invariant under permutation, income side. -/
theorem incSumInMonth_perm {l1 l2 : List Income} (h : l1.Perm l2)
    (mo : String) : incSumInMonth l1 mo = incSumInMonth l2 mo :=
  ((h.filter _).map _).sum_eq

/-- Category month sums are invariant under permutation. -/
theorem catSumInMonth_perm {l1 l2 : List Expense} (h : l1.Perm l2)
    (mo c : String) : catSumInMonth l1 mo c = catSumInMonth l2 mo c :=
  (((h.filter _).filter _).map _).sum_eq

/-- Claim C5: `getMonthlyBreakdown` works over all stored records (its
signature takes no filter), buckets them by the first seven characters of
the date, returns at most `months` entries sorted descending by month key,
and for each month reports `savings = income - expenses`, the month's
expense and income sums over the whole store, and as `topCategories` the
at-most-three highest-amount expense categories of that month in descending
order of amount (every other category of the month has a sum bounded by
each retained entry).  Months absent from the result are older than every
returned month. -/
theorem claim_C5_monthly_breakdown (es : List Expense) (is : List Income)
    (months : Nat) :
    (getMonthlyBreakdown es is months).length ≤ months ∧
    (getMonthlyBreakdown es is months).Pairwise
      (fun a b => b.month.data < a.month.data) ∧
    (∀ mb ∈ getMonthlyBreakdown es is months,
      mb.savings = mb.income - mb.expenses ∧
      mb.expenses = expSumInMonth es mb.month ∧
      mb.income = incSumInMonth is mb.month ∧
      mb.topCategories.length ≤ 3 ∧
      mb.topCategories.Pairwise (fun a b => b.amount ≤ a.amount) ∧
      (∀ t ∈ mb.topCategories,
        t.amount = catSumInMonth es mb.month t.name ∧
        ∃ e ∈ es, String.mk (e.date.data.take 7) = mb.month ∧
          e.category = t.name) ∧
      (∀ c : String,
        (∃ e ∈ es, String.mk (e.date.data.take 7) = mb.month ∧
          e.category = c) →
        (∀ t ∈ mb.topCategories, t.name ≠ c) →
        ∀ t ∈ mb.topCategories, catSumInMonth es mb.month c ≤ t.amount)) ∧
    (∀ mb ∈ getMonthlyBreakdown es is months,
      (∃ e ∈ es, String.mk (e.date.data.take 7) = mb.month) ∨
      ∃ i ∈ is, String.mk (i.date.data.take 7) = mb.month) ∧
    ∀ mo : String,
      ((∃ e ∈ es, String.mk (e.date.data.take 7) = mo) ∨
        ∃ i ∈ is, String.mk (i.date.data.take 7) = mo) →
      (∀ mb ∈ getMonthlyBreakdown es is months, mb.month ≠ mo) →
      ∀ mb ∈ getMonthlyBreakdown es is months, mo.data < mb.month.data := by
  have hpE : (getExpenses es none).Perm es := sortByKeyD_perm _ es
  have hpI : (getIncome is none).Perm is := sortByKeyD_perm _ is
  obtain ⟨h1, h2, h3, h4, h5⟩ := monthly_core (getExpenses es none)
    (getIncome is none) months _ _ rfl rfl
  refine ⟨h1, h2, ?_, ?_, ?_⟩
  · intro mb hmb
    obtain ⟨ha, hb, hc, hd, he2, hf2, hg⟩ := h3 mb hmb
    refine ⟨ha, ?_, ?_, hd, he2, ?_, ?_⟩
    · rw [hb]
      exact expSumInMonth_perm hpE mb.month
    · rw [hc]
      exact incSumInMonth_perm hpI mb.month
    · intro t ht
      obtain ⟨hta, e, he, hm1, hm2⟩ := hf2 t ht
      exact ⟨hta.trans (catSumInMonth_perm hpE mb.month t.name),
        e, hpE.mem_iff.mp he, hm1, hm2⟩
    · rintro c ⟨e, he, hemo, hecat⟩ hnot t ht
      have hgc := hg c ⟨e, hpE.mem_iff.mpr he, hemo, hecat⟩ hnot t ht
      rwa [catSumInMonth_perm hpE] at hgc
  · intro mb hmb
    rcases h4 mb hmb with ⟨e, he, heq⟩ | ⟨i, hi, heq⟩
    · exact Or.inl ⟨e, hpE.mem_iff.mp he, heq⟩
    · exact Or.inr ⟨i, hpI.mem_iff.mp hi, heq⟩
  · intro mo hocc hnot mb hmb
    apply h5 mo ?_ hnot mb hmb
    rcases hocc with ⟨e, he, heq⟩ | ⟨i, hi, heq⟩
    · exact Or.inl ⟨e, hpE.mem_iff.mpr he, heq⟩
    · exact Or.inr ⟨i, hpI.mem_iff.mpr hi, heq⟩

section ApiLemmas

/-- A truthiness-accepted string is nonempty. -/
theorem truthy_ne {o : Option String} {q : String} (h : truthy o = some q) :
    q ≠ "" := by
  cases o with
  | none => simp [truthy] at h
  | some s =>
    simp only [truthy] at h
    by_cases hs : s = ""
    · simp [hs] at h
    · simp [hs] at h
      rw [← h]
      exact hs

/-- Lowercasing preserves nonemptiness. -/
theorem lowerD_ne_nil {q : String} (h : q ≠ "") : lowerD q ≠ [] := by
  intro h2
  apply h
  apply String.ext
  simpa [lowerD] using h2

/-- Against a nonempty query, a defaulted empty description matches exactly
like a missing one: only through the category. -/
theorem apiSearchMatch_fill (e : ApiExpense) (q : List Char) (hq : q ≠ []) :
    apiSearchMatch (fillDescription e) q = apiSearchMatch e q := by
  cases hd : e.description with
  | some d => simp [apiSearchMatch, fillDescription, hd]
  | none =>
    have hempty : containsSub (lowerD "") q = false := by
      have : lowerD "" = [] := rfl
      rw [this]
      cases q with
      | nil => exact absurd rfl hq
      | cons c cs => rfl
    simp [apiSearchMatch, fillDescription, hd, hempty]

/-- The `startDate` step commutes with description defaulting. -/
theorem apiStepStartDate_map_fill (f : ExpenseFilter) (l : List ApiExpense) :
    apiStepStartDate f (l.map fillDescription) =
      (apiStepStartDate f l).map fillDescription := by
  cases h : truthy f.startDate with
  | none => simp [apiStepStartDate, h]
  | some s =>
    simp only [apiStepStartDate, h]
    rw [List.filter_map]
    exact congrArg _ (List.filter_congr fun e _ => rfl)

/-- The `endDate` step commutes with description defaulting. -/
theorem apiStepEndDate_map_fill (f : ExpenseFilter) (l : List ApiExpense) :
    apiStepEndDate f (l.map fillDescription) =
      (apiStepEndDate f l).map fillDescription := by
  cases h : truthy f.endDate with
  | none => simp [apiStepEndDate, h]
  | some s =>
    simp only [apiStepEndDate, h]
    rw [List.filter_map]
    exact congrArg _ (List.filter_congr fun e _ => rfl)

/-- The `category` step commutes with description defaulting. -/
theorem apiStepCategory_map_fill (f : ExpenseFilter) (l : List ApiExpense) :
    apiStepCategory f (l.map fillDescription) =
      (apiStepCategory f l).map fillDescription := by
  cases h : truthy f.category with
  | none => simp [apiStepCategory, h]
  | some s =>
    simp only [apiStepCategory, h]
    rw [List.filter_map]
    exact congrArg _ (List.filter_congr fun e _ => rfl)

/-- The `minAmount` step commutes with description defaulting. -/
theorem apiStepMinAmount_map_fill (f : ExpenseFilter) (l : List ApiExpense) :
    apiStepMinAmount f (l.map fillDescription) =
      (apiStepMinAmount f l).map fillDescription := by
  cases h : f.minAmount with
  | none => simp [apiStepMinAmount, h]
  | some m =>
    simp only [apiStepMinAmount, h]
    rw [List.filter_map]
    exact congrArg _ (List.filter_congr fun e _ => rfl)

/-- The `maxAmount` step commutes with description defaulting. -/
theorem apiStepMaxAmount_map_fill (f : ExpenseFilter) (l : List ApiExpense) :
    apiStepMaxAmount f (l.map fillDescription) =
      (apiStepMaxAmount f l).map fillDescription := by
  cases h : f.maxAmount with
  | none => simp [apiStepMaxAmount, h]
  | some m =>
    simp only [apiStepMaxAmount, h]
    rw [List.filter_map]
    exact congrArg _ (List.filter_congr fun e _ => rfl)

/-- The search step commutes with description defaulting whenever the
query passed the truthiness guard. -/
theorem apiStepSearch_map_fill (f : ExpenseFilter) (l : List ApiExpense)
    (q : String) (hq : truthy f.searchQuery = some q) :
    apiStepSearch f (l.map fillDescription) =
      (apiStepSearch f l).map fillDescription := by
  simp only [apiStepSearch, hq]
  rw [List.filter_map]
  refine congrArg _ (List.filter_congr fun e _ => ?_)
  exact apiSearchMatch_fill e (lowerD q) (lowerD_ne_nil (truthy_ne hq))

/-- The whole API pipeline commutes with description defaulting. -/
theorem apiGetExpenses_fill (es : List ApiExpense) (f : ExpenseFilter)
    (q : String) (hq : truthy f.searchQuery = some q) :
    apiGetExpenses (es.map fillDescription) (some f) =
      (apiGetExpenses es (some f)).map fillDescription := by
  show sortByKeyD _ (apiGetExpensesFiltered f (es.map fillDescription)) = _
  unfold apiGetExpensesFiltered
  rw [apiStepStartDate_map_fill, apiStepEndDate_map_fill,
    apiStepCategory_map_fill, apiStepMinAmount_map_fill,
    apiStepMaxAmount_map_fill, apiStepSearch_map_fill f _ q hq,
    sortByKeyD_map]
  rfl

end ApiLemmas

/-- Claim C7: with a search query present, the API variant of `getExpenses`
is a total function even on records whose description is missing, and a
missing description behaves exactly like the empty string: defaulting every
missing description to `""` commutes with the whole filter-and-sort
pipeline, and a record without a description can match the (nonempty,
truthiness-guarded) query only through its category. -/
theorem claim_C7_missing_description (es : List ApiExpense)
    (f : ExpenseFilter) (q : String) (hq : truthy f.searchQuery = some q) :
    apiGetExpenses (es.map fillDescription) (some f) =
      (apiGetExpenses es (some f)).map fillDescription ∧
    ∀ e : ApiExpense, e.description = none →
      apiSearchMatch e (lowerD q) = containsSub (lowerD e.category) (lowerD q) := by
  refine ⟨apiGetExpenses_fill es f q hq, ?_⟩
  intro e he
  simp [apiSearchMatch, he]

/-- Claim C9 (refuted by the code): `addExpense` assigns
`id = String(Date.now())`, so two calls landing in the same millisecond
(modelled by the same stringified clock reading `"1000"`) produce two
stored records with the same id — the stored ids are not pairwise
distinct.  `addIncome` assigns ids the same way. -/
theorem claim_C9_id_collision :
    ¬ ((((addExpense (addExpense [] "1000" 5 "2026-02-01" "Rent" "a").2
      "1000" 7 "2026-02-02" "Dining" "b").2).map fun e => e.id).Nodup) := by
  decide

section FindIndexLemmas

variable {α : Type}

/-- `findIndexOf` misses exactly when no element satisfies the test. -/
theorem findIndexOf_eq_none_iff (p : α → Bool) (l : List α) :
    findIndexOf p l = none ↔ ∀ x ∈ l, p x = false := by
  induction l with
  | nil => simp [findIndexOf]
  | cons x xs ih =>
    by_cases hx : p x
    · simp [findIndexOf, hx]
    · simp [findIndexOf, hx, ih, Option.map_eq_none]

/-- A hit of `findIndexOf` is a valid index whose element satisfies the
test. -/
theorem findIndexOf_some_spec (p : α → Bool) (l : List α) {i : Nat}
    (h : findIndexOf p l = some i) :
    ∃ hlt : i < l.length, p (l.get ⟨i, hlt⟩) = true := by
  induction l generalizing i with
  | nil => simp [findIndexOf] at h
  | cons x xs ih =>
    by_cases hx : p x
    · simp only [findIndexOf, if_pos hx, Option.some.injEq] at h
      subst h
      exact ⟨Nat.succ_pos _, hx⟩
    · simp only [findIndexOf, if_neg hx, Option.map_eq_some'] at h
      rcases h with ⟨j, hj, rfl⟩
      rcases ih hj with ⟨hlt, hp⟩
      exact ⟨Nat.succ_lt_succ hlt, hp⟩

end FindIndexLemmas

/-- Claim C10: for an id not present in the store, `updateExpense` returns
`null` and `deleteExpense` returns `false` (likewise `updateIncome` and
`deleteIncome`), leaving the store unchanged in each case; for a present
id, `deleteExpense` (resp. `deleteIncome`) returns `true` and removes
exactly one record bearing that id, keeping every other record in place. -/
theorem claim_C10_update_delete (stE : List Expense) (stI : List Income)
    (id0 : String) (u : ExpenseUpdate) (v : IncomeUpdate) :
    ((∀ e ∈ stE, e.id ≠ id0) →
      updateExpense stE id0 u = (none, stE) ∧
      deleteExpense stE id0 = (false, stE)) ∧
    ((∀ i ∈ stI, i.id ≠ id0) →
      updateIncome stI id0 v = (none, stI) ∧
      deleteIncome stI id0 = (false, stI)) ∧
    ((∃ e ∈ stE, e.id = id0) →
      (deleteExpense stE id0).1 = true ∧
      ∃ i, ∃ hi : i < stE.length, (stE.get ⟨i, hi⟩).id = id0 ∧
        (deleteExpense stE id0).2 = stE.take i ++ stE.drop (i + 1)) ∧
    ((∃ j ∈ stI, j.id = id0) →
      (deleteIncome stI id0).1 = true ∧
      ∃ i, ∃ hi : i < stI.length, (stI.get ⟨i, hi⟩).id = id0 ∧
        (deleteIncome stI id0).2 = stI.take i ++ stI.drop (i + 1)) := by
  refine ⟨?_, ?_, ?_, ?_⟩
  · intro h
    have hnone : findIndexOf (fun e => decide (e.id = id0)) stE = none :=
      (findIndexOf_eq_none_iff _ _).mpr fun x hx =>
        decide_eq_false (h x hx)
    constructor
    · simp [updateExpense, hnone]
    · simp [deleteExpense, hnone]
  · intro h
    have hnone : findIndexOf (fun i => decide (i.id = id0)) stI = none :=
      (findIndexOf_eq_none_iff _ _).mpr fun x hx =>
        decide_eq_false (h x hx)
    constructor
    · simp [updateIncome, hnone]
    · simp [deleteIncome, hnone]
  · rintro ⟨e, he, heq⟩
    cases hfix : findIndexOf (fun e => decide (e.id = id0)) stE with
    | none =>
      exact absurd ((findIndexOf_eq_none_iff _ _).mp hfix e he)
        (by simp [heq])
    | some i =>
      rcases findIndexOf_some_spec _ _ hfix with ⟨hlt, hp⟩
      refine ⟨by simp [deleteExpense, hfix], i, hlt,
        of_decide_eq_true hp, ?_⟩
      simp [deleteExpense, hfix, List.eraseIdx_eq_take_drop_succ]
  · rintro ⟨j, hj, heq⟩
    cases hfix : findIndexOf (fun i => decide (i.id = id0)) stI with
    | none =>
      exact absurd ((findIndexOf_eq_none_iff _ _).mp hfix j hj)
        (by simp [heq])
    | some i =>
      rcases findIndexOf_some_spec _ _ hfix with ⟨hlt, hp⟩
      refine ⟨by simp [deleteIncome, hfix], i, hlt,
        of_decide_eq_true hp, ?_⟩
      simp [deleteIncome, hfix, List.eraseIdx_eq_take_drop_succ]

/-- Concrete witness for claim C2: one income record of 500 gives a savings
rate computed by the formula; an empty income store gives rate `0`. -/
theorem claim_C2_balance_identity_witness :
    (getBalanceSummary [] [wSalary] none none).savingsRate =
      ((getBalanceSummary [] [wSalary] none none).totalIncome -
        (getBalanceSummary [] [wSalary] none none).totalExpenses) /
        (getBalanceSummary [] [wSalary] none none).totalIncome * 100 ∧
    (getBalanceSummary [] ([] : List Income) none none).savingsRate = 0 :=
  ⟨(claim_C2_balance_identity [] [wSalary] none none).2.1 (by
      norm_num [getBalanceSummary, getIncomeSummary, getIncome, sortByKeyD,
        sortByKey, insertLe, wSalary]),
   (claim_C2_balance_identity [] [] none none).2.2 (by
      norm_num [getBalanceSummary, getIncomeSummary, getIncome, sortByKeyD,
        sortByKey])⟩

/-- Concrete witness for claim C6: the empty store has average `0`, and an
empty income store forces savings rate `0`. -/
theorem claim_C6_zero_division_safety_witness :
    (getExpenseSummary ([] : List Expense) none).averageExpense = 0 ∧
    (getBalanceSummary [wRent] ([] : List Income) none none).savingsRate = 0 :=
  ⟨(claim_C6_zero_division_safety none [] [] none none).2.1 (by
      norm_num [getExpenseSummary, getExpenses, sortByKeyD, sortByKey]),
   (claim_C6_zero_division_safety none [wRent] [] none none).2.2 (by
      norm_num [getBalanceSummary, getIncomeSummary, getIncome, sortByKeyD,
        sortByKey])⟩

/-- Concrete witness for claim C3: one expense of 100 gives percentages
summing to 100; one expense of amount 0 gives all-zero percentages. -/
theorem claim_C3_percentage_sum_witness :
    ((getSpendingByCategory [wRent] none).map fun c => c.percentage).sum = 100 ∧
    (getSpendingByCategory [wZero] none).map (fun c => c.percentage) =
      List.replicate (getSpendingByCategory [wZero] none).length 0 :=
  ⟨(claim_C3_percentage_sum [wRent] none).1
      (by norm_num [getExpenseSummary, getExpenses, sortByKeyD, sortByKey,
        insertLe, wRent])
      (by simp [getSpendingByCategory, getExpenseSummary, getExpenses,
        sortByKeyD, sortByKey, insertLe, upsert, updAssoc, wRent]),
   (claim_C3_percentage_sum [wZero] none).2
      (by norm_num [getExpenseSummary, getExpenses, sortByKeyD, sortByKey,
        insertLe, wZero])⟩

/-- Concrete witness for claim C7: a search for "rent" over a record with a
missing description behaves identically after defaulting the description,
and such a record is matched through its category alone. -/
theorem claim_C7_missing_description_witness :
    apiGetExpenses ([wApiNoDesc].map fillDescription)
      (some { searchQuery := some "rent" }) =
      (apiGetExpenses [wApiNoDesc]
        (some { searchQuery := some "rent" })).map fillDescription ∧
    apiSearchMatch wApiNoDesc (lowerD "rent") =
      containsSub (lowerD wApiNoDesc.category) (lowerD "rent") :=
  ⟨(claim_C7_missing_description [wApiNoDesc]
      { searchQuery := some "rent" } "rent" (by decide)).1,
   (claim_C7_missing_description [wApiNoDesc]
      { searchQuery := some "rent" } "rent" (by decide)).2 wApiNoDesc rfl⟩

/-- Concrete witness for claim C10: a missing id leaves the stores
unchanged; a present id is deleted with result `true`. -/
theorem claim_C10_update_delete_witness :
    updateExpense [wRent] "404" {} = (none, [wRent]) ∧
    deleteExpense [wRent] "404" = (false, [wRent]) ∧
    updateIncome [wSalary] "404" {} = (none, [wSalary]) ∧
    deleteIncome [wSalary] "404" = (false, [wSalary]) ∧
    (deleteExpense [wRent] "1").1 = true ∧
    (deleteIncome [wSalary] "1").1 = true :=
  ⟨((claim_C10_update_delete [wRent] [wSalary] "404" {} {}).1 (by decide)).1,
   ((claim_C10_update_delete [wRent] [wSalary] "404" {} {}).1 (by decide)).2,
   ((claim_C10_update_delete [wRent] [wSalary] "404" {} {}).2.1 (by decide)).1,
   ((claim_C10_update_delete [wRent] [wSalary] "404" {} {}).2.1 (by decide)).2,
   ((claim_C10_update_delete [wRent] [wSalary] "1" {} {}).2.2.1
      ⟨wRent, by decide, by decide⟩).1,
   ((claim_C10_update_delete [wRent] [wSalary] "1" {} {}).2.2.2
      ⟨wSalary, by decide, by decide⟩).1⟩

/-- Concrete witness for claim C4: one expense on 2026-02-01 and one income
record on 2026-02-02 yield a point for 2026-02-01 with `expenses` equal to
that date's expense sum and `balance = income - expenses`. -/
theorem claim_C4_spending_trends_witness :
    (∃ p ∈ getSpendingTrends [wRent] [wSalary] none, p.date = "2026-02-01") ∧
    ({ date := "2026-02-01", income := 0, expenses := 100, balance := -100 } :
      TrendDataPoint).expenses =
      expSumOn (getExpenses [wRent] none)
        ({ date := "2026-02-01", income := 0, expenses := 100,
           balance := -100 } : TrendDataPoint).date ∧
    ({ date := "2026-02-01", income := 0, expenses := 100, balance := -100 } :
      TrendDataPoint).balance =
      ({ date := "2026-02-01", income := 0, expenses := 100, balance := -100 } :
        TrendDataPoint).income -
      ({ date := "2026-02-01", income := 0, expenses := 100, balance := -100 } :
        TrendDataPoint).expenses := by
  have hne : ¬(("2026-02-01" : String) = "2026-02-02") := by decide
  have hlt : ¬("2026-02-02".data < "2026-02-01".data) := by decide
  have hmem :
      ({ date := "2026-02-01"
         income := 0
         expenses := 100
         balance := -100 } : TrendDataPoint) ∈
      getSpendingTrends [wRent] [wSalary] none := by
    norm_num [getSpendingTrends, getExpenses, getIncome, sortByKeyD, sortByKey,
      insertLe, trendAddExpense, trendAddIncome, updAssoc, wRent, wSalary,
      hne, hlt]
  refine ⟨?_, ?_, ?_⟩
  · apply ((claim_C4_spending_trends [wRent] [wSalary] none).2.1
      "2026-02-01").mpr
    apply Or.inl
    simp [getExpenses, sortByKeyD, sortByKey, insertLe, wRent]
  · exact ((claim_C4_spending_trends [wRent] [wSalary] none).2.2 _ hmem).1
  · exact ((claim_C4_spending_trends [wRent] [wSalary] none).2.2 _ hmem).2.2

/-- Concrete witness for claim C5: one expense and one income record in
2026-02 produce at most six entries, and the 2026-02 entry satisfies the
savings identity and reports the month's expense sum. -/
theorem claim_C5_monthly_breakdown_witness :
    (getMonthlyBreakdown [wRent] [wSalary] 6).length ≤ 6 ∧
    ({ month := "2026-02", income := 500, expenses := 100, savings := 400,
       topCategories := [{ name := "Rent", amount := 100 }] } :
      MonthlyBreakdown).savings =
      ({ month := "2026-02", income := 500, expenses := 100, savings := 400,
         topCategories := [{ name := "Rent", amount := 100 }] } :
        MonthlyBreakdown).income -
      ({ month := "2026-02", income := 500, expenses := 100, savings := 400,
         topCategories := [{ name := "Rent", amount := 100 }] } :
        MonthlyBreakdown).expenses ∧
    ({ month := "2026-02", income := 500, expenses := 100, savings := 400,
       topCategories := [{ name := "Rent", amount := 100 }] } :
      MonthlyBreakdown).expenses =
      expSumInMonth [wRent]
        ({ month := "2026-02", income := 500, expenses := 100, savings := 400,
           topCategories := [{ name := "Rent", amount := 100 }] } :
          MonthlyBreakdown).month := by
  have hk1 : String.mk ("2026-02-01".data.take 7) = "2026-02" := by decide
  have hk2 : String.mk ("2026-02-02".data.take 7) = "2026-02" := by decide
  have hmem :
      ({ month := "2026-02"
         income := 500
         expenses := 100
         savings := 400
         topCategories := [{ name := "Rent", amount := 100 }] } :
      MonthlyBreakdown) ∈ getMonthlyBreakdown [wRent] [wSalary] 6 := by
    norm_num [getMonthlyBreakdown, getExpenses, getIncome, sortByKeyD,
      sortByKey, insertLe, monthAddExpense, monthAddIncome, updAssoc, upsert,
      wRent, wSalary, hk1, hk2]
  refine ⟨(claim_C5_monthly_breakdown [wRent] [wSalary] 6).1, ?_, ?_⟩
  · exact ((claim_C5_monthly_breakdown [wRent] [wSalary] 6).2.2.1 _ hmem).1
  · exact ((claim_C5_monthly_breakdown [wRent] [wSalary] 6).2.2.1 _ hmem).2.1

end Graphica
